import Mathlib

/-!
# Verification of the SVG text layout engine (KoSvgTextShape_p_layout.cpp)

Shallow embedding of the passes of `KoSvgTextShape::Private::relayout` and its
helpers.  Machine reals (`qreal`) are modelled by `ℚ`; `QPointF` by `Pt`;
`QRectF` by `Rect`; `QVector<T>` by `List T` with positional access.  External
collaborators (libunibreak break classification, Qt space classification,
raqm shaping output, font faces) are parameters of the embedding, exactly as
they are inputs of the routine.
-/

namespace KritaTextLayout

/-- QPointF: a 2D point with rational coordinates. -/
structure Pt where
  x : ℚ
  y : ℚ
deriving DecidableEq, Repr

instance : Add Pt := ⟨fun p q => ⟨p.x + q.x, p.y + q.y⟩⟩

theorem Pt.add_def (p q : Pt) : p + q = ⟨p.x + q.x, p.y + q.y⟩ := rfl

/-- QRectF: x, y, width, height. -/
structure Rect where
  x : ℚ
  y : ℚ
  w : ℚ
  h : ℚ
deriving DecidableEq, Repr

/-- libunibreak per-code-unit line break classes
(LINEBREAK_MUSTBREAK / ALLOWBREAK / NOBREAK / INSIDEACHAR). -/
inductive LineBreakClass where
  | mustBreak
  | allowBreak
  | noBreak
  | insideChar
deriving DecidableEq, Repr

/-- BreakType of a CharacterResult. -/
inductive BreakType where
  | noBreak
  | softBreak
  | hardBreak
deriving DecidableEq, Repr

/-- LineEdgeBehaviour of a CharacterResult. -/
inductive LineEdgeBehaviour where
  | noChange
  | collapse
  | forceHang
  | conditionallyHang
deriving DecidableEq, Repr

/-- KoSvgText::TextAnchor. -/
inductive TextAnchor where
  | anchorStart
  | anchorMiddle
  | anchorEnd
deriving DecidableEq, Repr

/-- KoSvgText::Direction. -/
inductive Direction where
  | leftToRight
  | rightToLeft
deriving DecidableEq, Repr

/-- Cursor bookkeeping attached to a CharacterResult (subset of CursorInfo
used by the layout passes under verification). -/
structure CursorInfo where
  rtl : Bool := false
  isWordBoundary : Bool := false
  caret : Pt := ⟨0, 0⟩
  offsets : List Pt := []
  graphemeIndices : List Int := []
deriving DecidableEq, Repr

/-- One entry of the character result array: one per UTF-16 code unit of the
collapsed text.  Field defaults follow the spec's data model ("visualIndex ==
-1 until the shaping pass assigns it"; addressable until the transform
resolver collapses the character; glyph payload modelled by its outline
points). -/
structure CharacterResult where
  addressable : Bool := true
  anchored_chunk : Bool := false
  middle : Bool := false
  hidden : Bool := false
  visualIndex : Int := -1
  plaintTextIndex : Int := -1
  breakType : BreakType := BreakType.noBreak
  lineStart : LineEdgeBehaviour := LineEdgeBehaviour.noChange
  lineEnd : LineEdgeBehaviour := LineEdgeBehaviour.noChange
  anchor : TextAnchor := TextAnchor.anchorStart
  direction : Direction := Direction.leftToRight
  cssPosition : Pt := ⟨0, 0⟩
  finalPosition : Pt := ⟨0, 0⟩
  advance : Pt := ⟨0, 0⟩
  inkBoundingBox : Rect := ⟨0, 0, 0, 0⟩
  rotate : ℚ := 0
  scaledAscent : ℚ := 0
  scaledDescent : ℚ := 0
  scaledHalfLeading : ℚ := 0
  fontHalfLeading : ℚ := 0
  textLengthApplied : Bool := false
  glyphOutline : List Pt := []
  cursorInfo : CursorInfo := {}
deriving DecidableEq, Repr

/-- Default-constructed CharacterResult. -/
def defaultCharacterResult : CharacterResult := {}

/-- `QVector::at` style access (entries out of range read as a
default-constructed CharacterResult; the source never reads out of range on
the paths we verify, and theorems carry the bounds). -/
def getCR (rs : List CharacterResult) (i : Nat) : CharacterResult :=
  rs.getD i defaultCharacterResult

/-- Writing-mode axis selector: the x coordinate when horizontal,
the y coordinate when vertical. -/
def axisCoord (isHorizontal : Bool) (p : Pt) : ℚ :=
  if isHorizontal then p.x else p.y

/-!
## Hard-break replacement before shaping
(`relayout`, lines 207-215: every code unit whose libunibreak class is
LINEBREAK_MUSTBREAK is overwritten with QChar::Space before the text is fed
to the raqm bidi/shaping stage; the classification array was computed from
the original text at lines 192-200 and is not recomputed.)
-/

/-- The hard-break surrogate written into the text (QChar::Space). -/
def spaceChar : Char := ' '

/-- Loop body of lines 211-215: walk the text from position `i`, overwriting
each code unit classified LINEBREAK_MUSTBREAK with a space. -/
def replaceHardBreaksGo (lineBreaks : List LineBreakClass) :
    Nat → List Char → List Char
  | _, [] => []
  | i, c :: rest =>
    (if lineBreaks.getD i LineBreakClass.noBreak = LineBreakClass.mustBreak then
      spaceChar
    else c) :: replaceHardBreaksGo lineBreaks (i + 1) rest

/-- Lines 207-215 of `relayout`: replace each code unit classified
LINEBREAK_MUSTBREAK by a space.  `lineBreaks` is the per-code-unit
classification of the original text (an input: libunibreak is external). -/
def replaceHardBreaks (text : List Char) (lineBreaks : List LineBreakClass) :
    List Char :=
  replaceHardBreaksGo lineBreaks 0 text

/-!
## Resolved per-character transforms
-/

/-- KoSvgText::CharTransformation: the per-character merged positioning
directive (spec data model: absolute x/y, relative dx/dy, rotation). -/
structure CharTransformation where
  xPos : Option ℚ := none
  yPos : Option ℚ := none
  dxPos : Option ℚ := none
  dyPos : Option ℚ := none
  rotate : Option ℚ := none
deriving DecidableEq, Repr

/-- A CharTransformation with nothing set. -/
def defaultCharTransformation : CharTransformation := {}

/-- Positional access into the resolved-transform array. -/
def getCT (ts : List CharTransformation) (k : Nat) : CharTransformation :=
  ts.getD k defaultCharTransformation

/-- Modelled from the spec: `CharTransformation::startsNewChunk` (KoSvgText,
not under src/) — a character starts a new anchored chunk when it carries an
absolute x or y position. -/
def startsNewChunk (t : CharTransformation) : Bool :=
  t.xPos.isSome || t.yPos.isSome

/-- Modelled from the spec: `CharTransformation::hasRelativeOffset`
(KoSvgText, not under src/) — true when a relative dx or dy is present. -/
def hasRelativeOffset (t : CharTransformation) : Bool :=
  t.dxPos.isSome || t.dyPos.isSome

/-- Modelled from the spec: `CharTransformation::relativeOffset` (KoSvgText,
not under src/) — the relative offset, absent components read as zero. -/
def relativeOffset (t : CharTransformation) : Pt :=
  ⟨t.dxPos.getD 0, t.dyPos.getD 0⟩

/-- Modelled from the spec: `CharTransformation::absolutePos` (KoSvgText,
not under src/) — the absolute position, absent components read as zero. -/
def absolutePos (t : CharTransformation) : Pt :=
  ⟨t.xPos.getD 0, t.yPos.getD 0⟩

/-!
## Text-path overrides of `resolveTransforms`
(lines 870-896: for a node that carries a text path, walk its character
range; the first addressable character gets its along-axis coordinate set to
zero, and every addressable character gets its cross-axis coordinate
cleared: yPos reset when horizontal, xPos reset when vertical.)
-/

/-- The two in-place writes of one loop iteration of lines 879-894 combined
into the updated entry: a first addressable character has its along-axis
coordinate set to zero, then every addressable character has its cross-axis
coordinate reset. -/
def textPathEntryUpdate (cur : CharTransformation) (first isHorizontal : Bool) :
    CharTransformation :=
  let cur1 :=
    if first then
      if isHorizontal then { cur with xPos := some 0 }
      else { cur with yPos := some 0 }
    else cur
  if isHorizontal then { cur1 with yPos := none }
  else { cur1 with xPos := none }

/-- Loop of lines 872-895: `k` is the current index, `first` the
not-yet-seen-an-addressable-character flag, the `Nat` argument counts the
remaining indices of the node's range. -/
def textPathTransformFixupGo (addr : List Bool) (isHorizontal : Bool) :
    Nat → Bool → Nat → List CharTransformation → List CharTransformation
  | _, _, 0, resolved => resolved
  | k, first, n + 1, resolved =>
    if addr.getD k false = false then
      textPathTransformFixupGo addr isHorizontal (k + 1) first n resolved
    else
      textPathTransformFixupGo addr isHorizontal (k + 1) false n
        (resolved.set k
          (textPathEntryUpdate (getCT resolved k) first isHorizontal))

/-- Lines 870-896 of `resolveTransforms` applied to a node with a text path
whose characters occupy `[s, e)`: `addr` holds each character's
addressability. -/
def textPathTransformFixup (resolved : List CharTransformation)
    (addr : List Bool) (s e : Nat) (isHorizontal : Bool) :
    List CharTransformation :=
  textPathTransformFixupGo addr isHorizontal s true (e - s) resolved

/-- The first addressable index at or after `k` among the next `n` indices
(the character whose along-axis coordinate the text-path override zeroes). -/
def firstAddressableIn (addr : List Bool) : Nat → Nat → Option Nat
  | _, 0 => none
  | k, n + 1 =>
    if addr.getD k false then some k
    else firstAddressableIn addr (k + 1) n

/-!
## Text-on-path arc-length mapping
(`characterResultOnPath`, lines 1566-1601.)
-/

/-- Truncating rational division result, matching C `fmod`'s quotient
(rounds toward zero). -/
def ratTrunc (q : ℚ) : ℤ :=
  if 0 ≤ q then Int.floor q else Int.ceil q

/-- C `fmod x y = x - trunc(x/y) * y`; the result has the sign of `x`. -/
def cFmod (x y : ℚ) : ℚ :=
  x - (ratTrunc (x / y) : ℚ) * y

/-- The unbent mid-advance point of a character on a path: final position
plus half the advance plus the start offset, along the writing-mode axis
(lines 1573-1576). -/
def midAdvancePoint (cr : CharacterResult) (offset : ℚ) (isHorizontal : Bool) :
    ℚ :=
  if isHorizontal then cr.finalPosition.x + cr.advance.x * (1/2) + offset
  else cr.finalPosition.y + cr.advance.y * (1/2) + offset

/-- `KoSvgTextShape::Private::characterResultOnPath` (lines 1566-1601): maps
a character to an arc-length position along a path of length `length` with
start offset `offset`, marking the character hidden when it falls outside the
visible domain; returns the updated character and the arc position. -/
def characterResultOnPath (cr : CharacterResult) (length offset : ℚ)
    (isHorizontal isClosed : Bool) : CharacterResult × ℚ :=
  let rtl := cr.direction = Direction.rightToLeft
  let mid := midAdvancePoint cr offset isHorizontal
  if isClosed then
    let cr :=
      if (cr.anchor = TextAnchor.anchorStart && !rtl)
          || (cr.anchor = TextAnchor.anchorEnd && rtl) then
        if mid - offset < 0 || mid - offset > length then
          { cr with hidden := true } else cr
      else if (cr.anchor = TextAnchor.anchorEnd && !rtl)
          || (cr.anchor = TextAnchor.anchorStart && rtl) then
        if mid - offset < -length || mid - offset > 0 then
          { cr with hidden := true } else cr
      else
        if mid - offset < -(length * (1/2)) || mid - offset > length * (1/2) then
          { cr with hidden := true } else cr
    let mid := if mid < 0 then mid + length else mid
    (cr, cFmod mid length)
  else
    let cr := if mid < 0 || mid > length then { cr with hidden := true } else cr
    (cr, mid)

/-!
## Glyph retrieval pass
(`relayout`, lines 479-531: walk raqm's glyph array; for each glyph whose
cluster is addressable, record the cluster direction and, when `loadGlyph`
succeeds, store the glyph payload, assign the visual index and clear the
`middle` flag; when `loadGlyph` fails the iteration `continue`s and the
cluster entry is left untouched.)
-/

/-- One raqm output glyph, together with the outcome of `loadGlyph` for it
(`loadGlyph` is declared outside this file's sources; modelled from the
spec: on success it fills the advance and ink bounding box of the cluster's
character and returns true, on failure it changes nothing and returns
false). -/
structure RaqmGlyph where
  cluster : Nat
  success : Bool
  rtl : Bool := false
  advance : Pt := ⟨0, 0⟩
  ink : Rect := ⟨0, 0, 0, 0⟩
deriving DecidableEq, Repr

/-- The update a successfully loaded glyph with visual index `i` makes to
its cluster's character (lines 509, 514-530). -/
def glyphClusterUpdate (cr : CharacterResult) (g : RaqmGlyph) (i : Nat) :
    CharacterResult :=
  { cr with
      cursorInfo := { cr.cursorInfo with rtl := g.rtl }
      advance := g.advance
      inkBoundingBox := g.ink
      visualIndex := Int.ofNat i
      middle := false }

/-- Loop of lines 479-531 over the glyph array (`i` is the running glyph
index).  A glyph whose cluster is not addressable, or whose `loadGlyph`
fails, leaves the result array unchanged (the mutated local copy is
discarded by `continue`). -/
def glyphPassGo : List CharacterResult → Nat → List RaqmGlyph →
    List CharacterResult
  | rs, _, [] => rs
  | rs, i, g :: rest =>
    if (getCR rs g.cluster).addressable = true ∧ g.cluster < rs.length then
      if g.success then
        glyphPassGo
          (rs.set g.cluster (glyphClusterUpdate (getCR rs g.cluster) g i))
          (i + 1) rest
      else glyphPassGo rs (i + 1) rest
    else glyphPassGo rs (i + 1) rest

/-- Lines 479-531 of `relayout`. -/
def glyphPass (rs : List CharacterResult) (glyphs : List RaqmGlyph) :
    List CharacterResult :=
  glyphPassGo rs 0 glyphs

/-!
## Middle/hidden fixup and the synthetic end-of-paragraph character
(`relayout`, lines 536-608.)
-/

/-- Lines 541-550: a representative code unit with a valid plain-text index
appends bookkeeping (ligature caret advance, grapheme index) to the
previous representative `fCl`. -/
def fixupRepUpdate (rs1 : List CharacterResult) (cr : CharacterResult)
    (fCl : Int) : List CharacterResult :=
  if cr.plaintTextIndex > -1 ∧ fCl > -1 then
    let fc := fCl.toNat
    let rep := getCR rs1 fc
    let info0 := rep.cursorInfo
    let info1 :=
      if info0.offsets ≠ [] then
        { info0 with offsets := info0.offsets ++ [rep.advance] }
      else info0
    let info2 :=
      { info1 with
          graphemeIndices := info1.graphemeIndices ++ [cr.plaintTextIndex] }
    rs1.set fc { rep with cursorInfo := info2 }
  else rs1

/-- Lines 554-564: propagate the break flags of code unit `i` onto the
representative `fC` when both sides share Qt's space classification. -/
def fixupBreakPropagate (isSpace : List Bool) (rs1 : List CharacterResult)
    (cr : CharacterResult) (i fC : Nat) : List CharacterResult :=
  if isSpace.getD fC false = isSpace.getD i false then
    let rep := getCR rs1 fC
    rs1.set fC
      { rep with
          breakType :=
            if rep.breakType ≠ BreakType.hardBreak then cr.breakType
            else rep.breakType
          lineStart :=
            if rep.lineStart = LineEdgeBehaviour.noChange then cr.lineStart
            else rep.lineStart
          lineEnd :=
            if rep.lineEnd = LineEdgeBehaviour.noChange then cr.lineEnd
            else rep.lineEnd }
  else rs1

/-- Lines 565-567: append code unit `i`'s grapheme index to the
representative when the previous position was a grapheme break. -/
def fixupGraphemePropagate (rs2 : List CharacterResult)
    (cr : CharacterResult) (fC : Nat) (gbn : Bool) : List CharacterResult :=
  if gbn = true ∧ cr.addressable = true ∧ cr.plaintTextIndex > -1 then
    let rep := getCR rs2 fC
    rs2.set fC
      { rep with
          cursorInfo :=
            { rep.cursorInfo with
                graphemeIndices :=
                  rep.cursorInfo.graphemeIndices ++ [cr.plaintTextIndex] } }
  else rs2

/-- Lines 552-570: a collapsed or mid-cluster code unit `i` propagates its
break flags onto the representative `fC` (when both sides share Qt's space
classification), possibly appends a grapheme index to the representative,
inherits the representative's css position plus advance, and is hidden. -/
def fixupElseUpdate (isSpace : List Bool) (rs1 : List CharacterResult)
    (cr : CharacterResult) (i fC : Nat) (gbn : Bool) :
    List CharacterResult :=
  let rs3 := fixupGraphemePropagate (fixupBreakPropagate isSpace rs1 cr i fC)
    cr fC gbn
  rs3.set i
    { getCR rs3 i with
        cssPosition := (getCR rs3 fC).cssPosition + (getCR rs3 fC).advance
        hidden := true }

/-- One iteration of the loop at lines 538-572, at index `i`.  The state is
(result array, `firstCluster`, `graphemeBreakNext`).  `isSpace` is Qt's
per-code-unit `QChar::isSpace` of the (hard-break-replaced) text;
`graphemeBreaks` marks GRAPHEMEBREAK_BREAK positions. -/
def fixupStep (isSpace graphemeBreaks : List Bool) (i : Nat)
    (st : List CharacterResult × Int × Bool) :
    List CharacterResult × Int × Bool :=
  let rs0 := st.1
  let crPre := getCR rs0 i
  let rs1 := rs0.set i { crPre with middle := decide (crPre.visualIndex = -1) }
  let cr := getCR rs1 i
  let gbNext := graphemeBreaks.getD i false
  if cr.addressable = true ∧ cr.middle = false then
    (fixupRepUpdate rs1 cr st.2.1, Int.ofNat i, gbNext)
  else
    (fixupElseUpdate isSpace rs1 cr i (max 0 st.2.1).toNat st.2.2,
      st.2.1, gbNext)

/-- Lines 573-576: ensure the last representative has a final grapheme
index (the size of the plain text) recorded. -/
def fixupEpilogue (plainTextSize : Nat)
    (st : List CharacterResult × Int × Bool) : List CharacterResult × Int :=
  let rs := st.1
  let fCl := st.2.1
  let gbn := st.2.2
  let fC := (max 0 fCl).toNat
  let rep := getCR rs fC
  let rs1 :=
    if rep.cursorInfo.graphemeIndices = [] ∨ gbn = true then
      rs.set fC
        { rep with
            cursorInfo :=
              { rep.cursorInfo with
                  graphemeIndices :=
                    rep.cursorInfo.graphemeIndices
                      ++ [Int.ofNat plainTextSize] } }
    else rs
  (rs1, fCl)

/-- The loop of lines 538-572 run over the first `n` indices, starting from
the initial state (`result`, firstCluster = -1, graphemeBreakNext = false). -/
def fixupFold (isSpace graphemeBreaks : List Bool) (n : Nat)
    (rs : List CharacterResult) : List CharacterResult × Int × Bool :=
  (List.range n).foldl
    (fun st i => fixupStep isSpace graphemeBreaks i st) (rs, -1, false)

/-- Lines 536-576 of `relayout`: recompute `middle` from the assigned visual
indices, hide mid-cluster and non-addressable code units (inheriting the
cluster representative's css position), propagate break flags onto the
representative, and track the last representative (`firstCluster`). -/
def fixupMiddle (isSpace graphemeBreaks : List Bool) (plainTextSize : Nat)
    (rs : List CharacterResult) : List CharacterResult × Int :=
  fixupEpilogue plainTextSize
    (fixupFold isSpace graphemeBreaks rs.length rs)

/-- The synthetic end-of-paragraph character of lines 582-604, built from
the last representative (`hardbreak`).  Its advance is the
default-constructed QPointF with the writing-mode axis component set to 0
(lines 594-599), and its ink bounding box is the hardbreak's with zero
extent along that axis. -/
def makeDummy (hardbreak : CharacterResult) (isHorizontal : Bool) :
    CharacterResult :=
  { defaultCharacterResult with
      addressable := true
      visualIndex := hardbreak.visualIndex + 1
      scaledAscent := hardbreak.scaledAscent
      scaledDescent := hardbreak.scaledDescent
      scaledHalfLeading := hardbreak.scaledHalfLeading
      cssPosition := hardbreak.cssPosition + hardbreak.advance
      finalPosition := hardbreak.cssPosition + hardbreak.advance
      inkBoundingBox :=
        if isHorizontal then { hardbreak.inkBoundingBox with w := 0 }
        else { hardbreak.inkBoundingBox with h := 0 }
      advance :=
        if isHorizontal then ⟨0, defaultCharacterResult.advance.y⟩
        else ⟨defaultCharacterResult.advance.x, 0⟩
      plaintTextIndex := hardbreak.cursorInfo.graphemeIndices.getLastD 0
      cursorInfo :=
        { defaultCharacterResult.cursorInfo with
            caret := hardbreak.cursorInfo.caret
            rtl := hardbreak.cursorInfo.rtl }
      direction := hardbreak.direction }

/-- Lines 578-608 of `relayout`: when the last representative carries a
mandatory (hard) break, insert the synthetic end-of-paragraph character
right after it; returns the array and the insertion index, if any. -/
def insertDummy (isHorizontal : Bool) (st : List CharacterResult × Int) :
    List CharacterResult × Option Nat :=
  let rs := st.1
  let fC := (max 0 st.2).toNat
  if (getCR rs fC).breakType = BreakType.hardBreak then
    (rs.insertIdx (fC + 1) (makeDummy (getCR rs fC) isHorizontal),
      some (fC + 1))
  else (rs, none)

/-- The index of the last visible — addressable and shaped (visual index
assigned) — code unit among the first `n` entries, or -1 when there is
none: the value `firstCluster` holds after the loop of lines 538-572. -/
def lastVisibleIn (rs : List CharacterResult) (n : Nat) : Int :=
  (List.range n).foldl
    (fun acc k =>
      if (getCR rs k).addressable = true ∧ ¬((getCR rs k).visualIndex = -1)
      then Int.ofNat k
      else acc)
    (-1)

/-!
## Text anchoring
(`applyAnchoring`, lines 1516-1563.)
-/

/-- The inner scan of lines 1524-1541 starting at `start`: walks indices
from `i` (with `fuel = length - i`), skipping non-addressable characters,
stopping at the next anchored-chunk start after `start`, and folding the
chunk extent `(a, b)` as min/max of position±advance along the writing-mode
axis; an anchored chunk character (the chunk's own start) re-initialises the
extent. -/
def extentScanGo (res : List CharacterResult) (isHorizontal : Bool)
    (start : Nat) : Nat → Nat → ℚ → ℚ → Nat × ℚ × ℚ
  | 0, i, a, b => (i, a, b)
  | fuel + 1, i, a, b =>
    if i < res.length then
      let cr := getCR res i
      if cr.addressable = false then
        extentScanGo res isHorizontal start fuel (i + 1) a b
      else if cr.anchored_chunk = true ∧ i > start then (i, a, b)
      else
        let pos := axisCoord isHorizontal cr.finalPosition
        let advance := axisCoord isHorizontal cr.advance
        if cr.anchored_chunk = true then
          extentScanGo res isHorizontal start fuel (i + 1)
            (min pos (pos + advance)) (max pos (pos + advance))
        else
          extentScanGo res isHorizontal start fuel (i + 1)
            (min a (min pos (pos + advance))) (max b (max pos (pos + advance)))
    else (i, a, b)

/-- Lines 1524-1541: the scan of the chunk starting at `start`, beginning
with `a = b = 0` (the loop's initial values). -/
def extentScan (res : List CharacterResult) (isHorizontal : Bool)
    (start : Nat) : Nat × ℚ × ℚ :=
  extentScanGo res isHorizontal start (res.length - start) start 0 0

/-- Lines 1543-1554: the shift moving the chunk's selected extent edge (per
anchor crossed with resolved direction) onto the chunk start's current
position. -/
def anchorShift (res : List CharacterResult) (isHorizontal : Bool)
    (start : Nat) (a b : ℚ) : ℚ :=
  let sCR := getCR res start
  let rtl := sCR.direction = Direction.rightToLeft
  let pos := axisCoord isHorizontal sCR.finalPosition
  if (sCR.anchor = TextAnchor.anchorStart ∧ ¬rtl)
      ∨ (sCR.anchor = TextAnchor.anchorEnd ∧ rtl) then pos - a
  else if (sCR.anchor = TextAnchor.anchorEnd ∧ ¬rtl)
      ∨ (sCR.anchor = TextAnchor.anchorStart ∧ rtl) then pos - b
  else pos - (a + b) * (1/2)

/-- Lines 1558-1560: add `p` to the final position of every character with
index in `[s, e)` (`k` is the index of the list head). -/
def shiftRangeGo (s e : Nat) (p : Pt) :
    Nat → List CharacterResult → List CharacterResult
  | _, [] => []
  | k, cr :: rest =>
    (if s ≤ k ∧ k < e then
      { cr with finalPosition := cr.finalPosition + p }
    else cr) :: shiftRangeGo s e p (k + 1) rest

/-- Lines 1558-1560 of `applyAnchoring`. -/
def shiftRange (res : List CharacterResult) (s e : Nat) (p : Pt) :
    List CharacterResult :=
  shiftRangeGo s e p 0 res

/-- The while loop of lines 1521-1562; each iteration scans one chunk and
shifts it, then continues at the chunk end.  `fuel` bounds the number of
iterations; the chunk end is strictly beyond the chunk start, so
`length + 1` iterations always suffice (see `applyAnchoring`). -/
def anchorLoop (isHorizontal : Bool) :
    Nat → List CharacterResult → Nat → List CharacterResult
  | 0, res, _ => res
  | fuel + 1, res, start =>
    if start < res.length then
      let scan := extentScan res isHorizontal start
      let shift := anchorShift res isHorizontal start scan.2.1 scan.2.2
      let shiftP : Pt := if isHorizontal then ⟨shift, 0⟩ else ⟨0, shift⟩
      anchorLoop isHorizontal fuel (shiftRange res start scan.1 shiftP) scan.1
    else res

/-- `KoSvgTextShape::Private::applyAnchoring` (lines 1516-1563). -/
def applyAnchoring (res : List CharacterResult) (isHorizontal : Bool) :
    List CharacterResult :=
  anchorLoop isHorizontal (res.length + 1) res 0

/-- The end of the anchored chunk starting at `s`: the first index after
`i = s + 1` (with `fuel = length - i`) holding an addressable
anchored-chunk character, or the array length. -/
def chunkEndGo (res : List CharacterResult) : Nat → Nat → Nat
  | 0, i => i
  | fuel + 1, i =>
    if i < res.length then
      if (getCR res i).addressable = true
          ∧ (getCR res i).anchored_chunk = true then i
      else chunkEndGo res fuel (i + 1)
    else i

/-- The maximal run of characters of the chunk anchored at `s` is
`[s, chunkEnd res s)`. -/
def chunkEnd (res : List CharacterResult) (s : Nat) : Nat :=
  chunkEndGo res (res.length - (s + 1)) (s + 1)

/-- One extent-fold step: an addressable character extends the running
min/max with position and position+advance along the writing-mode axis. -/
def extentFoldF (res : List CharacterResult) (isHorizontal : Bool)
    (ab : ℚ × ℚ) (k : Nat) : ℚ × ℚ :=
  let cr := getCR res k
  if cr.addressable = true then
    let pos := axisCoord isHorizontal cr.finalPosition
    let advance := axisCoord isHorizontal cr.advance
    (min ab.1 (min pos (pos + advance)), max ab.2 (max pos (pos + advance)))
  else ab

/-- The extent of the chunk `[s, e)` (with `s` addressable): min/max over
the addressable characters' position±advance along the writing-mode axis,
initialised at `s`. -/
def chunkExtent (res : List CharacterResult) (isHorizontal : Bool)
    (s e : Nat) : ℚ × ℚ :=
  let pos := axisCoord isHorizontal (getCR res s).finalPosition
  let advance := axisCoord isHorizontal (getCR res s).advance
  (List.range' (s + 1) (e - (s + 1))).foldl (extentFoldF res isHorizontal)
    (min pos (pos + advance), max pos (pos + advance))

/-- The extent coordinate that anchoring pins: the start, end or midpoint
of `[a, b]`, selected by the anchor value crossed with the resolved
direction. -/
def anchorTarget (anchor : TextAnchor) (rtl : Bool) (a b : ℚ) : ℚ :=
  if (anchor = TextAnchor.anchorStart ∧ rtl = false)
      ∨ (anchor = TextAnchor.anchorEnd ∧ rtl = true) then a
  else if (anchor = TextAnchor.anchorEnd ∧ rtl = false)
      ∨ (anchor = TextAnchor.anchorStart ∧ rtl = true) then b
  else (a + b) * (1/2)

/-- The shift applied to the chunk anchored at `s`, as a point. -/
def chunkShiftP (res : List CharacterResult) (isHorizontal : Bool)
    (s : Nat) : Pt :=
  let scan := extentScan res isHorizontal s
  let shift := anchorShift res isHorizontal s scan.2.1 scan.2.2
  if isHorizontal then ⟨shift, 0⟩ else ⟨0, shift⟩

/-!
## textLength redistribution
(`applyTextLength`, lines 903-1013.)
-/

/-- QMap<int,int> insert: keeps the association list sorted by key,
replacing an existing binding. -/
def mapInsert (m : List (Int × Nat)) (k : Int) (v : Nat) :
    List (Int × Nat) :=
  match m with
  | [] => [(k, v)]
  | (k0, v0) :: rest =>
    if k < k0 then (k, v) :: (k0, v0) :: rest
    else if k = k0 then (k, v) :: rest
    else (k0, v0) :: mapInsert rest k v

/-- The scan of lines 922-949 over the node's character range `[i, j)`:
accumulates the unstretched extent `(a, b)` (min/max of position±advance
along the writing-mode axis, initialised at `k = i`), the count `n` of
not-yet-stretched addressable characters, and the visual-to-logical map. -/
def textLengthScan (result : List CharacterResult) (isHorizontal : Bool)
    (i j : Nat) : ℚ × ℚ × Int × List (Int × Nat) :=
  (List.range' i (j - i)).foldl
    (fun st k =>
      let a := st.1
      let b := st.2.1
      let n := st.2.2.1
      let m := st.2.2.2
      let cr := getCR result k
      if cr.addressable = true then
        let m2 := if cr.visualIndex > -1 then mapInsert m cr.visualIndex k
          else m
        let pos := axisCoord isHorizontal cr.finalPosition
        let advance := axisCoord isHorizontal cr.advance
        let a2 := if k = i then min pos (pos + advance)
          else min a (min pos (pos + advance))
        let b2 := if k = i then max pos (pos + advance)
          else max b (max pos (pos + advance))
        let n2 := if cr.textLengthApplied = false then n + 1 else n
        (a2, b2, n2, m2)
      else st)
    (0, 0, 0, [])

/-- One iteration of the redistribution foreach of lines 961-984, over a
visual-to-logical entry `(k, ℓ)`.  The state also carries instrumentation:
`dIncrements` counts executions of `shift += d` (line 978) and
`shiftedAfterIncrement` counts characters whose final position received a
shift that already contains the quotient `d`. -/
def textLengthShiftStep (d : Pt) (spacingAndGlyphs : Bool) (lastKey : Int)
    (st : List CharacterResult × Pt × Bool × Nat × Nat) (e : Int × Nat) :
    List CharacterResult × Pt × Bool × Nat × Nat :=
  let rs := st.1
  let shift := st.2.1
  let secondTLA := st.2.2.1
  let dAdded := st.2.2.2.1
  let affected := st.2.2.2.2
  let cr := getCR rs e.2
  if cr.addressable = true then
    let affected2 := if 0 < dAdded then affected + 1 else affected
    let cr2 := { cr with finalPosition := cr.finalPosition + shift }
    let cr3 :=
      if spacingAndGlyphs then
        let sx := if d.x ≠ 0 then d.x / cr2.advance.x + 1 else 1
        let sy := if d.y ≠ 0 then d.y / cr2.advance.y + 1 else 1
        { cr2 with
            glyphOutline := cr2.glyphOutline.map
              (fun p => ⟨p.x * sx, p.y * sy⟩)
            advance := ⟨cr2.advance.x * sx, cr2.advance.y * sy⟩
            inkBoundingBox :=
              ⟨cr2.inkBoundingBox.x * sx, cr2.inkBoundingBox.y * sy,
                cr2.inkBoundingBox.w * sx, cr2.inkBoundingBox.h * sy⟩ }
      else cr2
    let last := if spacingAndGlyphs then false else decide (e.1 = lastKey)
    let doShift :=
      ¬(cr3.textLengthApplied = true ∧ secondTLA = true) ∧ last = false
    let shift2 := if doShift then shift + d else shift
    let dAdded2 := if doShift then dAdded + 1 else dAdded
    let cr4 := { cr3 with textLengthApplied := true }
    (rs.set e.2 cr4, shift2, cr3.textLengthApplied, dAdded2, affected2)
  else (rs, shift, secondTLA, dAdded, affected)

/-- The forward trailing-map rebuild of lines 992-997: from `j` on, stop at
an anchored-chunk start, otherwise record the character. -/
def trailingForward (result : List CharacterResult) (j : Nat) :
    List (Int × Nat) :=
  (List.range' j (result.length - j)).foldl
    (fun st k =>
      if st.2 = true then st
      else if (getCR result k).anchored_chunk = true then (st.1, true)
      else (mapInsert st.1 (getCR result k).visualIndex k, false))
    ([], false) |>.1

/-- The backward trailing-map rebuild of lines 999-1004: from `k` down to
0, record the character, stopping after an anchored-chunk start (the entry
is recorded before the stop test). -/
def trailingBackward (result : List CharacterResult) :
    List (Int × Nat) → Nat → List (Int × Nat)
  | m, 0 => mapInsert m (getCR result 0).visualIndex 0
  | m, k + 1 =>
    let m2 := mapInsert m (getCR result (k + 1)).visualIndex (k + 1)
    if (getCR result (k + 1)).anchored_chunk = true then m2
    else trailingBackward result m2 k

/-- Outcome of one `applyTextLength` node visit, with instrumentation of the
division of line 957 (`delta / n`). -/
structure TextLengthOutcome where
  result : List CharacterResult
  divisorN : Int
  delta : ℚ
  dIncrements : Nat
  shiftedAfterIncrement : Nat
deriving DecidableEq, Repr

/-- Lines 920-1012 of `applyTextLength` for one node whose characters
occupy `[i, j)`, with `textLength` (none = isAuto), `lengthAdjust`, the
number of descendant nodes already resolved, and the writing mode.  The
division `delta / n` at line 957 is performed with no guard on `n = 0`; in
the C++ `qreal` arithmetic a zero divisor yields a non-finite quotient
(here the total rational division-by-zero convention returns 0, and the
instrumentation fields record that the unguarded quotient was produced and
added into character positions). -/
def applyTextLengthNode (result : List CharacterResult) (i j : Nat)
    (textLength : Option ℚ) (spacingAndGlyphs : Bool)
    (resolvedChildren : Nat) (isHorizontal : Bool) : TextLengthOutcome :=
  match textLength with
  | none => ⟨result, 1, 0, 0, 0⟩
  | some tl =>
    let scan := textLengthScan result isHorizontal i j
    let a := scan.1
    let b := scan.2.1
    let m := scan.2.2.2
    let n0 := scan.2.2.1 + Int.ofNat resolvedChildren
    let n := if spacingAndGlyphs then n0 else n0 - 1
    let delta := tl - (b - a)
    let dq := delta / (n : ℚ)
    let d : Pt := if isHorizontal then ⟨dq, 0⟩ else ⟨0, dq⟩
    let lastKey := (m.getLastD (0, 0)).1
    let loop := m.foldl (textLengthShiftStep d spacingAndGlyphs lastKey)
      (result, ⟨0, 0⟩, false, 0, 0)
    let rs2 := loop.1
    let shift := loop.2.1
    let dAdded := loop.2.2.2.1
    let affected := loop.2.2.2.2
    let m2 := trailingForward rs2 j
    let m3 := trailingBackward rs2 m2 i
    let trail := m3.foldl
      (fun st e =>
        if e.1 > lastKey then
          (st.1.set e.2
            { getCR st.1 e.2 with
                finalPosition := (getCR st.1 e.2).finalPosition + shift },
            if 0 < dAdded then st.2 + 1 else st.2)
        else st)
      (rs2, affected)
    ⟨trail.1, n, delta, dAdded, trail.2⟩

/-- Concrete input for the C2 witness: one addressable anchored character
at x = 3 with advance 2. -/
def c2res : List CharacterResult :=
  [{ defaultCharacterResult with
      anchored_chunk := true
      finalPosition := ⟨3, 0⟩
      advance := ⟨2, 0⟩ }]

/-- Concrete input for C3: a node whose two addressable characters were both
already stretched by a descendant's textLength (one resolved child), so the
divisor `n` is `0 + 1 - 1 = 0`. -/
def c3rs : List CharacterResult :=
  [{ defaultCharacterResult with visualIndex := 0, textLengthApplied := true },
   { defaultCharacterResult with visualIndex := 1, textLengthApplied := true }]

/-- Concrete input for the C1 witness: a single visible character carrying
a mandatory break. -/
def c1rs : List CharacterResult :=
  [{ defaultCharacterResult with
      breakType := BreakType.hardBreak
      visualIndex := 0 }]

/-- Concrete input for the C7 witness: a representative at index 0 and a
cluster at index 1 whose glyph retrieval fails. -/
def c7rs : List CharacterResult :=
  [defaultCharacterResult, defaultCharacterResult]

/-- Raqm output for the C7 witness: the glyph of cluster 0 loads, the glyph
of cluster 1 fails to load. -/
def c7glyphs : List RaqmGlyph :=
  [{ cluster := 0, success := true, advance := ⟨1, 0⟩ },
   { cluster := 1, success := false }]

/-- Concrete character for the C6 counterexample: its mid-advance point is
-25, more than one path length below zero. -/
def c6ex : CharacterResult :=
  { defaultCharacterResult with finalPosition := ⟨-25, 0⟩ }

/-- Concrete character for the C6 witness: its mid-advance point is -3,
within one path length below zero. -/
def c6wit : CharacterResult :=
  { defaultCharacterResult with finalPosition := ⟨-3, 0⟩ }

/-!
## The distilled top-level relayout
(`relayout`, lines 97-811, together with `clearAssociatedOutlines`, lines
813-819 and `logicalToVisualCursorPositions`, lines 55-97.)  The tree walk
is distilled to a single content node; external collaborators (libunibreak
classes, Qt space classification, the cluster-to-plain-text mapping, raqm's
glyph array) are inputs, and the refinements of the attribute loop that
only affect hang/justify bookkeeping (lines 305-357) are omitted.
-/

/-- One stored cursor position (CursorPos of KoSvgTextShape_p.h: cluster
index into the result array, plain-text index, offset within the cluster,
synthetic leading-position flag). -/
structure CursorPos where
  cluster : Nat := 0
  index : Int := -1
  offset : Nat := 0
  synthetic : Bool := false
deriving DecidableEq, Repr

/-- The state mutated by `relayout`: the stored layout outputs of
KoSvgTextShape::Private (lines 99-103 and 805-810) plus the tree-attached
outlines and text decorations (`clearAssociatedOutlines`).  `plainText` is
modelled by its length. -/
structure LayoutState where
  result : List CharacterResult := []
  cursorPos : List CursorPos := []
  logicalToVisualCursorPos : List (Int × Nat) := []
  lineBoxes : List (List Nat) := []
  initialTextPosition : Pt := ⟨0, 0⟩
  plainTextLen : Nat := 0
  isBidi : Bool := false
  associatedOutlines : List Rect := []
  textDecorations : List Rect := []
deriving DecidableEq, Repr

/-- The inputs of the distilled single-node `relayout`: the collapsed text
with its external classifications, the node's positioning attributes, and
the shaper output (`glyphs` is `none` when raqm produces no glyph array,
which is what the null check of lines 466-470 tests). -/
structure RelayoutInput where
  treeSize : Nat := 1
  text : List Char := []
  lineBreaks : List LineBreakClass := []
  graphemeBreaks : List Bool := []
  isSpace : List Bool := []
  collapsedChars : List Bool := []
  plainIndices : List Int := []
  localTransforms : List CharTransformation := []
  wrapped : Bool := false
  wrap : Bool := false
  isHorizontal : Bool := true
  anchor : TextAnchor := TextAnchor.anchorStart
  direction : Direction := Direction.leftToRight
  glyphs : Option (List RaqmGlyph) := none
  plainTextLen : Nat := 0
  textLength : Option ℚ := none
  spacingAndGlyphs : Bool := false
  resolvedChildren : Nat := 0
deriving DecidableEq, Repr

/-- Lines 99-103 and `clearAssociatedOutlines` (lines 813-819): at entry
the stored result, cursor positions, cursor map and initial position are
cleared and every tree node's associated outline and text decorations are
reset.  (`lineBoxes`, the plain text and `isBidi` are not touched by the
entry clearing, faithful to the source.) -/
def clearEntry (s : LayoutState) : LayoutState :=
  { s with
      result := []
      cursorPos := []
      logicalToVisualCursorPos := []
      initialTextPosition := ⟨0, 0⟩
      associatedOutlines := []
      textDecorations := [] }

/-- Lines 216-225: carry the collector's cluster-to-original-string mapping
onto `plaintTextIndex` (`plainIndices.getD i (-1)` is code unit `i`'s
plain-text index, -1 when unmapped, matching the default entry). -/
def assignPlainIndices (plainIndices : List Int) :
    Nat → List CharacterResult → List CharacterResult
  | _, [] => []
  | i, cr :: rest =>
    { cr with plaintTextIndex := plainIndices.getD i (-1) } ::
      assignPlainIndices plainIndices (i + 1) rest

/-- Lines 239-243: the resolved-transform array starts with one
default-constructed entry per code unit, and when non-empty its first
entry receives absolute position (0, 0) before `resolveTransforms` merges
the tree's local transforms over it. -/
def initResolvedTransforms (n : Nat) : List CharTransformation :=
  let rt : List CharTransformation :=
    List.replicate n defaultCharTransformation
  if rt.isEmpty then rt
  else rt.set 0 { getCT rt 0 with xPos := some 0, yPos := some 0 }

/-- Modelled from the spec: `CharTransformation::mergeInParentTransformation`
(KoSvgText, not under src/) — absolute x/y positions come from the node
when it declares them, relative offsets compose additively, and rotation
falls back to the inherited one when the node declares none. -/
def mergeInParentTransformation (t parent : CharTransformation) :
    CharTransformation :=
  { xPos := if t.xPos.isSome then t.xPos else parent.xPos
    yPos := if t.yPos.isSome then t.yPos else parent.yPos
    dxPos :=
      if t.dxPos.isSome || parent.dxPos.isSome then
        some (t.dxPos.getD 0 + parent.dxPos.getD 0)
      else none
    dyPos :=
      if t.dyPos.isSome || parent.dyPos.isSome then
        some (t.dyPos.getD 0 + parent.dyPos.getD 0)
      else none
    rotate := if t.rotate.isSome then t.rotate else parent.rotate }

/-- Lines 840-841: Unicode bidirectional control code units
(U+202A..U+202E and U+2066..U+2069, compared as in the source by code
point). -/
def isBidiControl (c : Char) : Bool :=
  (8234 ≤ c.toNat && c.toNat ≤ 8238) || (8294 ≤ c.toNat && c.toNat ≤ 8297)

/-- QChar::SoftHyphen (U+00AD). -/
def softHyphenChar : Char := Char.ofNat 173

/-- Loop body of lines 836-861 for the distilled single node: code unit `k`
is marked non-addressable when collapsed, a bidi control in a non-wrapped
context, or a soft hyphen; otherwise the node's next local transform is
merged over the inherited entry, and once the local transforms run out an
explicit rotation is inherited forward from the previous entry.  The state
is (result, resolved transforms, local-transform cursor). -/
def resolveStep (text : List Char) (collapsedChars : List Bool)
    (localTransforms : List CharTransformation) (wrapped : Bool) (k : Nat)
    (st : List CharacterResult × List CharTransformation × Nat) :
    List CharacterResult × List CharTransformation × Nat :=
  let rs := st.1
  let rt := st.2.1
  let i := st.2.2
  let c := text.getD k spaceChar
  if collapsedChars.getD k false = true
      ∨ (isBidiControl c = true ∧ wrapped = false)
      ∨ c = softHyphenChar then
    (rs.set k { getCR rs k with addressable := false }, rt, i)
  else if h : i < localTransforms.length then
    (rs,
      rt.set k (mergeInParentTransformation (localTransforms.get ⟨i, h⟩)
        (getCT rt k)),
      i + 1)
  else if 0 < k ∧ (getCT rt (k - 1)).rotate.isSome = true then
    (rs, rt.set k { getCT rt k with rotate := (getCT rt (k - 1)).rotate }, i)
  else (rs, rt, i)

/-- Lines 830-861 of `resolveTransforms`, distilled to one node covering
the whole (hard-break-replaced) text, with no text path: returns the
updated result array and resolved transforms. -/
def resolveTransformsFlat (text : List Char) (collapsedChars : List Bool)
    (localTransforms : List CharTransformation) (wrapped : Bool)
    (rs : List CharacterResult) (rt : List CharTransformation) :
    List CharacterResult × List CharTransformation :=
  let out := (List.range text.length).foldl
    (fun st k =>
      resolveStep text collapsedChars localTransforms wrapped k st)
    (rs, rt, 0)
  (out.1, out.2.1)

/-- The per-character portion of the attribute loop kept by the
distillation (lines 290-303): every character receives the node's anchor
and direction, a LINEBREAK_MUSTBREAK position becomes a hard break with
collapsing line edges, and a LINEBREAK_ALLOWBREAK position becomes a soft
break when wrapping is enabled. -/
def assignBreakTypesGo (lineBreaks : List LineBreakClass)
    (anchor : TextAnchor) (direction : Direction) (wrap : Bool) :
    Nat → List CharacterResult → List CharacterResult
  | _, [] => []
  | i, cr :: rest =>
    (if lineBreaks.getD i LineBreakClass.noBreak
        = LineBreakClass.mustBreak then
      { cr with
          anchor := anchor
          direction := direction
          breakType := BreakType.hardBreak
          lineStart := LineEdgeBehaviour.collapse
          lineEnd := LineEdgeBehaviour.collapse }
    else if lineBreaks.getD i LineBreakClass.noBreak
        = LineBreakClass.allowBreak ∧ wrap = true then
      { cr with
          anchor := anchor
          direction := direction
          breakType := BreakType.softBreak }
    else { cr with anchor := anchor, direction := direction }) ::
      assignBreakTypesGo lineBreaks anchor direction wrap (i + 1) rest

/-- Lines 290-303 over the whole character range. -/
def assignBreakTypes (lineBreaks : List LineBreakClass)
    (anchor : TextAnchor) (direction : Direction) (wrap : Bool)
    (rs : List CharacterResult) : List CharacterResult :=
  assignBreakTypesGo lineBreaks anchor direction wrap 0 rs

/-- Lines 455-458: the very first character result is marked as an
anchored-chunk start whenever the array is non-empty. -/
def markFirstAnchored (rs : List CharacterResult) : List CharacterResult :=
  if rs.isEmpty then rs
  else rs.set 0 { getCR rs 0 with anchored_chunk := true }

/-- Lines 509-512: the layout is flagged bidirectional when any glyph's
raqm-resolved direction disagrees with its addressable cluster's resolved
CSS direction (the flag is set before glyph loading, so a later load
failure does not undo it). -/
def computeIsBidi (rs : List CharacterResult) (glyphs : List RaqmGlyph) :
    Bool :=
  glyphs.any fun g =>
    decide (g.cluster < rs.length) && (getCR rs g.cluster).addressable &&
      (g.rtl
        != decide ((getCR rs g.cluster).direction = Direction.rightToLeft))

/-- One iteration of the dx/dy pass (lines 634-661): an addressable
character accumulates the relative offset into the running shift, receives
its explicit rotation and `cssPosition + shift` as final position, and an
anchored-chunk start falling mid-cluster is deferred onto the next
addressable character through the `setAnchoredChunk` flag. -/
def dxdyStep (rt : List CharTransformation) (i : Nat)
    (st : List CharacterResult × Pt × Bool) :
    List CharacterResult × Pt × Bool :=
  let rs := st.1
  let shift := st.2.1
  let setAnchoredChunk := st.2.2
  let cr := getCR rs i
  if cr.addressable = true then
    let t := getCT rt i
    let shift2 :=
      if hasRelativeOffset t = true then shift + relativeOffset t else shift
    let cr1 :=
      if t.rotate.isSome = true then { cr with rotate := t.rotate.getD 0 }
      else cr
    let cr2 := { cr1 with finalPosition := cr1.cssPosition + shift2 }
    let cr3 :=
      if setAnchoredChunk = true then { cr2 with anchored_chunk := true }
      else cr2
    if startsNewChunk t = true then
      if cr3.middle = true then (rs.set i cr3, shift2, true)
      else (rs.set i { cr3 with anchored_chunk := true }, shift2, false)
    else (rs.set i cr3, shift2, false)
  else (rs, shift, setAnchoredChunk)

/-- Lines 634-661 of `relayout` (the SVG 1.1 branch). -/
def dxdyPass (rt : List CharTransformation) (rs : List CharacterResult) :
    List CharacterResult :=
  ((List.range rs.length).foldl (fun st i => dxdyStep rt i st)
    (rs, ⟨0, 0⟩, false)).1

/-- One iteration of the x/y pass (lines 672-692): an explicit x (or y)
snaps the running shift so the character lands at the declared coordinate
plus its own dx (dy), and a mid-cluster character inherits the preceding
character's final position verbatim. -/
def xyStep (rt : List CharTransformation) (i : Nat)
    (st : List CharacterResult × Pt) : List CharacterResult × Pt :=
  let rs := st.1
  let shift := st.2
  let cr := getCR rs i
  if cr.addressable = true then
    let t := getCT rt i
    let sx :=
      if t.xPos.isSome = true then
        t.xPos.getD 0 + (t.dxPos.getD 0 - cr.finalPosition.x)
      else shift.x
    let sy :=
      if t.yPos.isSome = true then
        t.yPos.getD 0 + (t.dyPos.getD 0 - cr.finalPosition.y)
      else shift.y
    let cr1 := { cr with finalPosition := cr.finalPosition + (⟨sx, sy⟩ : Pt) }
    let cr2 :=
      if cr1.middle = true ∧ 1 ≤ i then
        { cr1 with finalPosition := (getCR rs (i - 1)).finalPosition }
      else cr1
    (rs.set i cr2, ⟨sx, sy⟩)
  else (rs, shift)

/-- Lines 666-692 of `relayout` (the SVG 1.1 branch). -/
def xyPass (rt : List CharTransformation) (rs : List CharacterResult) :
    List CharacterResult :=
  ((List.range rs.length).foldl (fun st i => xyStep rt i st)
    (rs, ⟨0, 0⟩)).1

/-- Scalar multiple of a point. -/
def ptSmul (q : ℚ) (p : Pt) : Pt := ⟨q * p.x, q * p.y⟩

/-- Point difference. -/
def ptSub (p q : Pt) : Pt := ⟨p.x - q.x, p.y - q.y⟩

/-- Line 752: prepend a caret offset to code unit `i`'s cursor info. -/
def cursorOffsetsInsert (i : Nat) (p : Pt) (rs : List CharacterResult) :
    List CharacterResult :=
  rs.set i
    { getCR rs i with
        cursorInfo :=
          { (getCR rs i).cursorInfo with
              offsets := p :: (getCR rs i).cursorInfo.offsets } }

/-- Line 774: prepend the plain-text index to code unit `i`'s grapheme
indices. -/
def cursorGraphemesInsert (i : Nat) (rs : List CharacterResult) :
    List CharacterResult :=
  rs.set i
    { getCR rs i with
        cursorInfo :=
          { (getCR rs i).cursorInfo with
              graphemeIndices :=
                (getCR rs i).plaintTextIndex
                  :: (getCR rs i).cursorInfo.graphemeIndices } }

/-- Lines 776-778: overwrite code unit `i`'s caret offsets with the
synthesised advance fractions when the shaper recorded fewer. -/
def cursorOffsetsOverwrite (i : Nat) (ps : List Pt)
    (rs : List CharacterResult) : List CharacterResult :=
  if (getCR rs i).cursorInfo.offsets.length < ps.length then
    rs.set i
      { getCR rs i with
          cursorInfo := { (getCR rs i).cursorInfo with offsets := ps } }
  else rs

/-- Cursor-position synthesis for one character (lines 742-780): a visible
character with a plain-text index contributes a synthetic leading cursor
position when it starts an anchored chunk (recording a leading caret
offset), then one cursor position per recorded grapheme index (a hard
break's final grapheme is skipped), and its caret offsets are replaced by
synthesised advance fractions when the shaper recorded fewer. -/
def cursorStep (i : Nat) (st : List CharacterResult × List CursorPos) :
    List CharacterResult × List CursorPos :=
  let rs := st.1
  let cps := st.2
  let cr := getCR rs i
  if cr.addressable = true ∧ cr.middle = false ∧ cr.plaintTextIndex > -1
  then
    let insertFirst := cr.anchored_chunk
    let newOffset : Pt :=
      if cr.cursorInfo.rtl = true then cr.advance else ⟨0, 0⟩
    let cps1 :=
      if insertFirst = true then
        cps ++ [{ cluster := i, index := cr.plaintTextIndex, offset := 0,
                  synthetic := true }]
      else cps
    let rs1 :=
      if insertFirst = true then cursorOffsetsInsert i newOffset rs else rs
    let positions0 : List Pt :=
      if insertFirst = true then [newOffset] else []
    let graphemes := cr.cursorInfo.graphemeIndices.length
    let step := (List.range graphemes).foldl
      (fun acc k =>
        if cr.breakType = BreakType.hardBreak ∧ k + 1 = graphemes then acc
        else
          let offset := ptSmul (((k : ℚ) + 1) / (graphemes : ℚ)) cr.advance
          (acc.1 ++ [{ cluster := i,
                       index := cr.cursorInfo.graphemeIndices.getD k 0,
                       offset := if insertFirst = true then k + 1 else k,
                       synthetic := false }],
           acc.2 ++ [if cr.cursorInfo.rtl = true then ptSub cr.advance offset
                     else offset]))
      ((cps1, positions0) : List CursorPos × List Pt)
    let rs2 := if insertFirst = true then cursorGraphemesInsert i rs1 else rs1
    (cursorOffsetsOverwrite i step.2 rs2, step.1)
  else (rs, cps)

/-- Lines 792-805: when a synthetic end-of-paragraph character was inserted
and is itself an anchored-chunk start, it receives one synthetic cursor
position, its plain-text index is stepped back and a zero caret offset is
recorded. -/
def dummyCursor (dummyIndex : Option Nat)
    (st : List CharacterResult × List CursorPos) :
    List CharacterResult × List CursorPos :=
  match dummyIndex with
  | none => st
  | some d =>
    if d < st.1.length ∧ (getCR st.1 d).anchored_chunk = true then
      (cursorOffsetsInsert d ⟨0, 0⟩
        (st.1.set d
          { getCR st.1 d with
              plaintTextIndex := (getCR st.1 d).plaintTextIndex - 1 }),
       st.2 ++ [{ cluster := d, index := (getCR st.1 d).plaintTextIndex,
                  offset := 0, synthetic := true }])
    else st

/-- The cursor-position output loop of lines 737-805, distilled to a single
chunk covering the whole result array. -/
def buildCursorOutputs (rs : List CharacterResult)
    (dummyIndex : Option Nat) : List CharacterResult × List CursorPos :=
  dummyCursor dummyIndex
    ((List.range rs.length).foldl (fun st i => cursorStep i st) (rs, []))

/-- Lines 782-786: every addressable, non-middle, non-hidden character
contributes its ink bounding box translated to its final position to the
node's associated outline.  (The distillation drops the per-character
rotation of `finalTransform` and the rare dummy contribution of lines
801-803.) -/
def buildOutlines (rs : List CharacterResult) : List Rect :=
  (List.range rs.length).filterMap fun i =>
    let cr := getCR rs i
    if cr.addressable = true ∧ cr.middle = false ∧ cr.hidden = false then
      some ⟨cr.inkBoundingBox.x + cr.finalPosition.x,
            cr.inkBoundingBox.y + cr.finalPosition.y,
            cr.inkBoundingBox.w, cr.inkBoundingBox.h⟩
    else none

/-- `computeTextDecorations` distilled to its data dependency: one box per
visible character spanning its advance at its final position (the
underline-path construction reads only the rebuilt result array, which is
what the idempotence and emptiness claims need). -/
def decorationsModel (rs : List CharacterResult) : List Rect :=
  (List.range rs.length).filterMap fun i =>
    let cr := getCR rs i
    if cr.addressable = true ∧ cr.hidden = false then
      some ⟨cr.finalPosition.x, cr.finalPosition.y,
            cr.advance.x, cr.advance.y⟩
    else none

/-- Modelled from the spec: `breakLines` (KoSvgTextShapeLayoutFunc, not
under src/) partitions the character stream into line boxes; with no
wrapping constraint the distillation yields a single line holding every
addressable character in logical order. -/
def breakLinesModel (rs : List CharacterResult) : List (List Nat) :=
  [(List.range rs.length).filter (fun i => (getCR rs i).addressable)]

/-- QMap::value lookup (default-constructed 0 when the key is absent). -/
def mapValue (m : List (Int × Nat)) (key : Int) : Nat :=
  ((m.find? (fun e => e.1 == key)).map (fun e => e.2)).getD 0

/-- `logicalToVisualCursorPositions` (lines 55-97): per line chunk, order
the clusters by visual index, collect each cluster's cursor positions by
offset (walked in reverse for a right-to-left cluster), then enumerate the
collected positions (reversed unless the paragraph is left-to-right),
assigning each its rank in the accumulated map. -/
def l2vCursorPositions (cursorPos : List CursorPos)
    (rs : List CharacterResult) (lines : List (List Nat)) (ltr : Bool) :
    List (Int × Nat) :=
  lines.foldl
    (fun l2v chunkIndices =>
      let visualToLogical := chunkIndices.foldl
        (fun m j => mapInsert m (getCR rs j).visualIndex j) []
      let visual := visualToLogical.foldl
        (fun vis e =>
          let j := e.2
          let relevant := (List.range cursorPos.length).foldl
            (fun m k =>
              if (cursorPos.getD k {}).cluster = j then
                mapInsert m (Int.ofNat (cursorPos.getD k {}).offset) k
              else m)
            []
          relevant.foldl
            (fun vis2 ke =>
              let fin :=
                if (getCR rs j).cursorInfo.rtl = true then
                  Int.ofNat relevant.length - 1 - ke.1
                else ke.1
              vis2 ++ [mapValue relevant fin])
            vis)
        []
      let ordered := if ltr then visual else visual.reverse
      ordered.foldl (fun m v => mapInsert m (Int.ofNat v) m.length) l2v)
    []

/-- The main body of `relayout` past the glyph-array null check (lines
472-810), distilled to a single node: glyph pass, middle/hidden fixup,
synthetic end-of-paragraph insertion (with the matching resolved-transform
insertion of line 607), line boxes, the SVG 1.1 positioning passes (dx/dy,
textLength, x/y, anchoring — they run exactly when no wrapping context is
active, line 630), and the cursor/outline/decoration outputs.  Every
stored field is rebuilt from the inputs alone. -/
def relayoutMain (inp : RelayoutInput) (gs : List RaqmGlyph) : LayoutState :=
  let n := inp.text.length
  let shapedText := replaceHardBreaks inp.text inp.lineBreaks
  let res0 := assignPlainIndices inp.plainIndices 0
    (List.replicate n defaultCharacterResult)
  let rt0 := initResolvedTransforms n
  let pr := resolveTransformsFlat shapedText inp.collapsedChars
    inp.localTransforms inp.wrapped res0 rt0
  let res1 := assignBreakTypes inp.lineBreaks inp.anchor inp.direction
    inp.wrap pr.1
  let res2 := markFirstAnchored res1
  let bidi := computeIsBidi res2 gs
  let res3 := glyphPass res2 gs
  let fixed := fixupMiddle inp.isSpace inp.graphemeBreaks inp.plainTextLen
    res3
  let dum := insertDummy inp.isHorizontal fixed
  let res4 := dum.1
  let rt1 := match dum.2 with
    | some d => pr.2.insertIdx d defaultCharTransformation
    | none => pr.2
  let startPos := absolutePos (getCT rt1 0)
  let lineList := breakLinesModel res4
  let res7 :=
    if inp.wrapped = false then
      let res5 := dxdyPass rt1 res4
      let res5b := (applyTextLengthNode res5 0 res5.length inp.textLength
        inp.spacingAndGlyphs inp.resolvedChildren inp.isHorizontal).result
      let res6 := xyPass rt1 res5b
      applyAnchoring res6 inp.isHorizontal
    else res4
  let outputs := buildCursorOutputs res7 dum.2
  { result := outputs.1
    cursorPos := outputs.2
    logicalToVisualCursorPos := l2vCursorPositions outputs.2 outputs.1
      lineList (decide (inp.direction = Direction.leftToRight))
    lineBoxes := lineList
    initialTextPosition := startPos
    plainTextLen := inp.plainTextLen
    isBidi := bidi
    associatedOutlines := buildOutlines outputs.1
    textDecorations := decorationsModel outputs.1 }

/-- `KoSvgTextShape::Private::relayout` (lines 97-811): clear the stored
layout state and tree-attached outlines, return early when the tree is
empty (lines 105-107) or the shaper produced no glyph array (lines
466-470), otherwise rebuild every stored field from the inputs. -/
def relayout (inp : RelayoutInput) (st : LayoutState) : LayoutState :=
  let s0 := clearEntry st
  if inp.treeSize = 0 then s0
  else
    match inp.glyphs with
    | none => s0
    | some gs => relayoutMain inp gs

/-- The hazardous read of lines 573-581: after the glyph loop the fixup
epilogue reads `result.at(qMax(0, firstCluster))` unconditionally, which
is out of bounds exactly when the pipeline passes the glyph-array null
check with an empty result array (non-empty tree, glyph array present,
zero code units). -/
def reachesEmptyFixupRead (inp : RelayoutInput) : Bool :=
  decide (inp.treeSize ≠ 0) && inp.glyphs.isSome
    && decide (inp.text.length = 0)

/-- Concrete input for the C10 witness: a one-character tree whose shaper
returned an empty glyph array. -/
def c10inp : RelayoutInput :=
  { treeSize := 1, text := [spaceChar], glyphs := some [] }

/-- Concrete input for the C8 witness: the empty tree. -/
def c8inp : RelayoutInput := { treeSize := 0 }

/-!
## Theorems
-/

theorem replaceHardBreaksGo_length (lineBreaks : List LineBreakClass)
    (k : Nat) (text : List Char) :
    (replaceHardBreaksGo lineBreaks k text).length = text.length := by
  induction text generalizing k with
  | nil => rfl
  | cons c rest ih => simp [replaceHardBreaksGo, ih]

theorem replaceHardBreaksGo_getD (lineBreaks : List LineBreakClass)
    (k : Nat) (text : List Char) (i : Nat) (hi : i < text.length) :
    (replaceHardBreaksGo lineBreaks k text).getD i ' ' =
      (if lineBreaks.getD (k + i) LineBreakClass.noBreak =
          LineBreakClass.mustBreak then
        spaceChar
      else text.getD i ' ') := by
  induction text generalizing k i with
  | nil => simp at hi
  | cons c rest ih =>
    cases i with
    | zero => simp [replaceHardBreaksGo]
    | succ n =>
      have hn : n < rest.length := by simpa using hi
      have := ih (k + 1) n hn
      simpa [replaceHardBreaksGo, Nat.add_assoc, Nat.add_comm 1 n] using this

/-- C4: before the collapsed text is handed to the bidi/shaping engine,
every code unit classified as a mandatory line break (LINEBREAK_MUSTBREAK)
has been replaced by a space character, and all other code units are passed
through unchanged, so the text given to the shaper contains no
mandatory-break characters; the classification array `lineBreaks` is the one
computed from the original text (lines 192-200), before the replacement. -/
theorem c4_hard_breaks_replaced_before_shaping (text : List Char)
    (lineBreaks : List LineBreakClass) (i : Nat) (hi : i < text.length) :
    (replaceHardBreaks text lineBreaks).length = text.length ∧
    (lineBreaks.getD i LineBreakClass.noBreak = LineBreakClass.mustBreak →
      (replaceHardBreaks text lineBreaks).getD i ' ' = spaceChar) ∧
    (lineBreaks.getD i LineBreakClass.noBreak ≠ LineBreakClass.mustBreak →
      (replaceHardBreaks text lineBreaks).getD i ' ' = text.getD i ' ') := by
  refine ⟨replaceHardBreaksGo_length lineBreaks 0 text, ?_, ?_⟩
  · intro h
    rw [replaceHardBreaks, replaceHardBreaksGo_getD lineBreaks 0 text i hi]
    rw [Nat.zero_add, if_pos h]
  · intro h
    rw [replaceHardBreaks, replaceHardBreaksGo_getD lineBreaks 0 text i hi]
    rw [Nat.zero_add, if_neg h]

theorem getCT_set_ne (ts : List CharTransformation) (v : CharTransformation)
    (i j : Nat) (h : i ≠ j) : getCT (ts.set i v) j = getCT ts j := by
  simp [getCT, List.getD, List.getElem?_set_ne h]

theorem getCT_set_self (ts : List CharTransformation) (v : CharTransformation)
    (i : Nat) (h : i < ts.length) : getCT (ts.set i v) i = v := by
  simp [getCT, List.getD, List.getElem?_set_self, h]

theorem getCR_set_ne (rs : List CharacterResult) (v : CharacterResult)
    (i j : Nat) (h : i ≠ j) : getCR (rs.set i v) j = getCR rs j := by
  simp [getCR, List.getD, List.getElem?_set_ne h]

theorem getCR_set_self (rs : List CharacterResult) (v : CharacterResult)
    (i : Nat) (h : i < rs.length) : getCR (rs.set i v) i = v := by
  simp [getCR, List.getD, List.getElem?_set_self, h]

theorem getCR_set_field {α : Sort _} (f : CharacterResult → α)
    (rs : List CharacterResult) (v : CharacterResult) (i j : Nat)
    (h : f v = f (getCR rs i)) :
    f (getCR (rs.set i v) j) = f (getCR rs j) := by
  by_cases hij : i = j
  · subst hij
    by_cases hl : i < rs.length
    · rw [getCR_set_self rs v i hl]
      exact h
    · rw [List.set_eq_of_length_le (by omega)]
  · rw [getCR_set_ne rs v i j hij]

theorem textPathTransformFixupGo_length (addr : List Bool)
    (isHorizontal : Bool) (n : Nat) : ∀ (k0 : Nat) (first : Bool)
    (res : List CharTransformation),
    (textPathTransformFixupGo addr isHorizontal k0 first n res).length
      = res.length := by
  induction n with
  | zero => intro k0 first res; rfl
  | succ n ih =>
    intro k0 first res
    rw [textPathTransformFixupGo]
    by_cases h : addr.getD k0 false = false
    · rw [if_pos h]
      exact ih (k0 + 1) first res
    · rw [if_neg h, ih]
      simp

theorem textPathTransformFixupGo_below (addr : List Bool)
    (isHorizontal : Bool) (n : Nat) : ∀ (k0 : Nat) (first : Bool)
    (res : List CharTransformation) (j : Nat), j < k0 →
    getCT (textPathTransformFixupGo addr isHorizontal k0 first n res) j
      = getCT res j := by
  induction n with
  | zero => intro k0 first res j _; rfl
  | succ n ih =>
    intro k0 first res j hj
    rw [textPathTransformFixupGo]
    by_cases h : addr.getD k0 false = false
    · rw [if_pos h]
      exact ih (k0 + 1) first res j (Nat.lt_succ_of_lt hj)
    · rw [if_neg h]
      rw [ih (k0 + 1) false _ j (Nat.lt_succ_of_lt hj)]
      exact getCT_set_ne _ _ _ _ (Nat.ne_of_gt hj)

theorem textPathTransformFixupGo_spec (addr : List Bool) (isHorizontal : Bool)
    (n : Nat) : ∀ (k0 : Nat) (first : Bool) (res : List CharTransformation)
    (k : Nat), k0 ≤ k → k < k0 + n → addr.getD k false = true →
    k < res.length →
    ((isHorizontal = true →
      (getCT (textPathTransformFixupGo addr isHorizontal k0 first n res)
        k).yPos = none) ∧
    (isHorizontal = false →
      (getCT (textPathTransformFixupGo addr isHorizontal k0 first n res)
        k).xPos = none)) ∧
    (first = true → firstAddressableIn addr k0 n = some k →
      ((isHorizontal = true →
        (getCT (textPathTransformFixupGo addr isHorizontal k0 first n res)
          k).xPos = some 0) ∧
      (isHorizontal = false →
        (getCT (textPathTransformFixupGo addr isHorizontal k0 first n res)
          k).yPos = some 0))) := by
  induction n with
  | zero =>
    intro k0 first res k hk1 hk2 _ _
    omega
  | succ n ih =>
    intro k0 first res k hk1 hk2 haddr hlen
    by_cases h0 : addr.getD k0 false = false
    · have hne : k ≠ k0 := fun he => by rw [he, h0] at haddr; cases haddr
      have hk1' : k0 + 1 ≤ k := by omega
      rw [textPathTransformFixupGo, if_pos h0]
      have := ih (k0 + 1) first res k hk1' (by omega) haddr hlen
      refine ⟨this.1, ?_⟩
      intro hf hfa
      have hnot : ¬ (addr.getD k0 false = true) := by
        rw [h0]
        exact Bool.false_ne_true
      rw [firstAddressableIn, if_neg hnot] at hfa
      exact this.2 hf hfa
    · have h0t : addr.getD k0 false = true := by
        cases haddr0 : addr.getD k0 false
        · exact absurd haddr0 h0
        · rfl
      rw [textPathTransformFixupGo, if_neg h0]
      rcases Nat.eq_or_lt_of_le hk1 with he | hlt
      · -- k = k0: the entry is written in this iteration and is untouched
        -- by the rest of the loop
        subst he
        rw [textPathTransformFixupGo_below addr isHorizontal n (k0 + 1) false
          _ k0 (Nat.lt_succ_self k0)]
        rw [getCT_set_self _ _ _ hlen]
        constructor
        · cases isHorizontal
          · exact ⟨fun hc => absurd hc Bool.false_ne_true, fun _ => rfl⟩
          · exact ⟨fun _ => rfl, fun hc => absurd hc (by decide)⟩
        · intro hf _
          subst hf
          cases isHorizontal
          · exact ⟨fun hc => absurd hc Bool.false_ne_true, fun _ => rfl⟩
          · exact ⟨fun _ => rfl, fun hc => absurd hc (by decide)⟩
      · -- k > k0: handled by the recursive call with first := false
        have hlen2 : k < (res.set k0
            (textPathEntryUpdate (getCT res k0) first isHorizontal)).length :=
          by simpa using hlen
        have := ih (k0 + 1) false _ k (by omega) (by omega) haddr hlen2
        refine ⟨this.1, ?_⟩
        intro hf hfa
        rw [firstAddressableIn, if_pos h0t] at hfa
        have : k0 = k := by injection hfa
        omega

/-- C5 (amended): for a node embedded in a text path, `resolveTransforms`
suppresses each addressable character's cross-axis explicit coordinate in
the resolved transform — y when the writing mode is horizontal, x when
vertical — and resets the along-axis coordinate (x when horizontal, y when
vertical) of the very first addressable character on the path to zero. -/
theorem c5_textPath_transform_override (resolved : List CharTransformation)
    (addr : List Bool) (s e k : Nat) (isHorizontal : Bool) (hk1 : s ≤ k)
    (hk2 : k < e) (haddr : addr.getD k false = true)
    (hlen : k < resolved.length) :
    ((isHorizontal = true →
      (getCT (textPathTransformFixup resolved addr s e isHorizontal) k).yPos
        = none) ∧
    (isHorizontal = false →
      (getCT (textPathTransformFixup resolved addr s e isHorizontal) k).xPos
        = none)) ∧
    (firstAddressableIn addr s (e - s) = some k →
      ((isHorizontal = true →
        (getCT (textPathTransformFixup resolved addr s e isHorizontal)
          k).xPos = some 0) ∧
      (isHorizontal = false →
        (getCT (textPathTransformFixup resolved addr s e isHorizontal)
          k).yPos = some 0))) := by
  have hse : s < e := lt_of_le_of_lt hk1 hk2
  have hk2' : k < s + (e - s) := by omega
  have := textPathTransformFixupGo_spec addr isHorizontal (e - s) s true
    resolved k hk1 hk2' haddr hlen
  exact ⟨this.1, this.2 rfl⟩

/-- C5 counterexample: the claim as stated — x is the suppressed coordinate
when the writing mode is horizontal — is false: with horizontal writing the
code clears yPos and keeps xPos, so an addressable character (other than the
first on the path) keeps its explicit x coordinate. -/
theorem c5_counterexample :
    ¬ (∀ (resolved : List CharTransformation) (addr : List Bool)
        (s e k : Nat), s ≤ k → k < e → addr.getD k false = true →
        (getCT (textPathTransformFixup resolved addr s e true) k).xPos
          = none) := by
  intro h
  have h1 := h
    [defaultCharTransformation,
      { defaultCharTransformation with xPos := some 5 }]
    [true, true] 0 2 1 (by omega) (by omega) rfl
  have h2 : (getCT (textPathTransformFixup
      [defaultCharTransformation,
        { defaultCharTransformation with xPos := some 5 }]
      [true, true] 0 2 true) 1).xPos = some 5 := rfl
  rw [h2] at h1
  cases h1

/-- Witness for C5's amended theorem: horizontal writing, two addressable
characters, the second carrying explicit coordinates; its yPos is cleared
and the first character's xPos is zeroed. -/
theorem c5_witness :
    (0 : Nat) ≤ 1 ∧ 1 < 2 ∧
      ([true, true] : List Bool).getD 1 false = true ∧
      1 < ([defaultCharTransformation,
        { defaultCharTransformation with xPos := some 5, yPos := some 7
        }] : List CharTransformation).length ∧
      (getCT (textPathTransformFixup
        [defaultCharTransformation,
          { defaultCharTransformation with xPos := some 5, yPos := some 7 }]
        [true, true] 0 2 true) 1).yPos = none := by
  refine ⟨Nat.zero_le 1, by omega, rfl, by simp, ?_⟩
  exact (c5_textPath_transform_override
    [defaultCharTransformation,
      { defaultCharTransformation with xPos := some 5, yPos := some 7 }]
    [true, true] 0 2 1 true (by omega) (by omega) rfl (by simp)).1.1 rfl

theorem cFmod_nonneg_lt (x y : ℚ) (hx : 0 ≤ x) (hy : 0 < y) :
    0 ≤ cFmod x y ∧ cFmod x y < y := by
  rw [cFmod, ratTrunc, if_pos (div_nonneg hx hy.le)]
  have h1 : (Int.floor (x / y) : ℚ) * y ≤ x := by
    have := Int.floor_le (x / y)
    rw [← le_div_iff₀ hy]
    exact this
  have h2 : x < ((Int.floor (x / y) : ℚ) + 1) * y := by
    have := Int.lt_floor_add_one (x / y)
    rw [← div_lt_iff₀ hy]
    exact_mod_cast this
  constructor
  · linarith
  · nlinarith

/-- C6 (amended): for a closed path, provided the path length is positive and
the unbent mid-advance position is at least `-length` (a single additive wrap
then suffices), the arc-length position produced by `characterResultOnPath`
lies in `[0, length)`; for an open path, every character whose mid-advance
point (final position plus half its advance plus the start offset) falls
outside `[0, length]` is marked hidden. -/
theorem c6_characterResultOnPath_bounds (cr : CharacterResult)
    (length offset : ℚ) (isHorizontal : Bool) (hlen : 0 < length)
    (hwrap : -length ≤ midAdvancePoint cr offset isHorizontal) :
    (0 ≤ (characterResultOnPath cr length offset isHorizontal true).2 ∧
      (characterResultOnPath cr length offset isHorizontal true).2 < length) ∧
    ((midAdvancePoint cr offset isHorizontal < 0 ∨
        midAdvancePoint cr offset isHorizontal > length) →
      (characterResultOnPath cr length offset isHorizontal false).1.hidden
        = true) := by
  constructor
  · have harg :
        (characterResultOnPath cr length offset isHorizontal true).2 =
          cFmod (if midAdvancePoint cr offset isHorizontal < 0 then
              midAdvancePoint cr offset isHorizontal + length
            else midAdvancePoint cr offset isHorizontal) length := by
      simp [characterResultOnPath]
    rw [harg]
    by_cases hm : midAdvancePoint cr offset isHorizontal < 0
    · rw [if_pos hm]
      exact cFmod_nonneg_lt _ _ (by linarith) hlen
    · rw [if_neg hm]
      exact cFmod_nonneg_lt _ _ (by linarith) hlen
  · intro h
    rcases h with h | h
    · simp [characterResultOnPath, h]
    · simp [characterResultOnPath, h]

theorem c6ex_arc : (characterResultOnPath c6ex 10 0 true true).2 = -5 := by
  have hmid : midAdvancePoint c6ex 0 true = -25 := by
    norm_num [midAdvancePoint, c6ex, defaultCharacterResult]
  have harg : (characterResultOnPath c6ex 10 0 true true).2 =
      cFmod (-15) 10 := by
    simp only [characterResultOnPath]
    rw [hmid]
    norm_num
  rw [harg, cFmod, ratTrunc, if_neg (by norm_num)]
  rw [show Int.ceil ((-15 : ℚ) / 10) = -1 by
    rw [Int.ceil_eq_iff]
    norm_num]
  norm_num

/-- C6 counterexample: the claim as stated — for every character on a closed
path the produced arc-length position lies within `[0, path length)` — is
false: a character whose mid-advance point is more than one length below
zero is wrapped only once and `fmod` keeps its sign, yielding -5 on a path
of length 10. -/
theorem c6_counterexample :
    ¬ (∀ (cr : CharacterResult) (length offset : ℚ) (isHorizontal : Bool),
        0 < length →
        0 ≤ (characterResultOnPath cr length offset isHorizontal true).2 ∧
          (characterResultOnPath cr length offset isHorizontal true).2
            < length) := by
  intro h
  have h5 := (h c6ex 10 0 true (by norm_num)).1
  rw [c6ex_arc] at h5
  norm_num at h5

/-- Witness for C6's amended theorem at a concrete input: a character at
x = -3 (within one length of the start) on a closed path of length 10, and
a character at x = 12 on an open path of the same length. -/
theorem c6_witness :
    (0 : ℚ) < 10 ∧
    -(10 : ℚ) ≤ midAdvancePoint c6wit 0 true ∧
    (0 ≤ (characterResultOnPath c6wit 10 0 true true).2 ∧
      (characterResultOnPath c6wit 10 0 true true).2 < 10) := by
  have hmid : midAdvancePoint c6wit 0 true = -3 := by
    norm_num [midAdvancePoint, c6wit, defaultCharacterResult]
  refine ⟨by norm_num, by rw [hmid]; norm_num, ?_⟩
  exact (c6_characterResultOnPath_bounds c6wit 10 0 true (by norm_num)
    (by rw [hmid]; norm_num)).1

/-- Witness for C4 at a concrete input: text "a\n" with the second unit
classified as a mandatory break. -/
theorem c4_witness :
    1 < (['a', '\n'] : List Char).length ∧
    (replaceHardBreaks ['a', '\n']
        [LineBreakClass.noBreak, LineBreakClass.mustBreak]).getD 1 ' ' =
      spaceChar := by
  refine ⟨by decide, ?_⟩
  exact (c4_hard_breaks_replaced_before_shaping ['a', '\n']
    [LineBreakClass.noBreak, LineBreakClass.mustBreak] 1 (by decide)).2.1
    (by decide)

/-!
### Lemmas about the middle/hidden fixup stages
-/

theorem fixupRepUpdate_length (rs1 : List CharacterResult)
    (cr : CharacterResult) (fCl : Int) :
    (fixupRepUpdate rs1 cr fCl).length = rs1.length := by
  rw [fixupRepUpdate]
  split
  · simp
  · rfl

theorem fixupRepUpdate_stable {α : Sort _} (f : CharacterResult → α)
    (hf : ∀ (a : CharacterResult) (ci : CursorInfo),
      f { a with cursorInfo := ci } = f a)
    (rs1 : List CharacterResult) (cr : CharacterResult) (fCl : Int)
    (j : Nat) :
    f (getCR (fixupRepUpdate rs1 cr fCl) j) = f (getCR rs1 j) := by
  rw [fixupRepUpdate]
  split
  · exact getCR_set_field f _ _ _ _ (hf _ _)
  · rfl

theorem fixupBreakPropagate_length (isSpace : List Bool)
    (rs1 : List CharacterResult) (cr : CharacterResult) (i fC : Nat) :
    (fixupBreakPropagate isSpace rs1 cr i fC).length = rs1.length := by
  rw [fixupBreakPropagate]
  split
  · simp
  · rfl

theorem fixupBreakPropagate_stable {α : Sort _} (f : CharacterResult → α)
    (hf : ∀ (a : CharacterResult) (bt : BreakType)
      (ls le : LineEdgeBehaviour),
      f { a with breakType := bt, lineStart := ls, lineEnd := le } = f a)
    (isSpace : List Bool) (rs1 : List CharacterResult)
    (cr : CharacterResult) (i fC : Nat) (j : Nat) :
    f (getCR (fixupBreakPropagate isSpace rs1 cr i fC) j)
      = f (getCR rs1 j) := by
  rw [fixupBreakPropagate]
  split
  · exact getCR_set_field f _ _ _ _ (hf _ _ _ _)
  · rfl

theorem fixupGraphemePropagate_length (rs2 : List CharacterResult)
    (cr : CharacterResult) (fC : Nat) (gbn : Bool) :
    (fixupGraphemePropagate rs2 cr fC gbn).length = rs2.length := by
  rw [fixupGraphemePropagate]
  split
  · simp
  · rfl

theorem fixupGraphemePropagate_stable {α : Sort _} (f : CharacterResult → α)
    (hf : ∀ (a : CharacterResult) (ci : CursorInfo),
      f { a with cursorInfo := ci } = f a)
    (rs2 : List CharacterResult) (cr : CharacterResult) (fC : Nat)
    (gbn : Bool) (j : Nat) :
    f (getCR (fixupGraphemePropagate rs2 cr fC gbn) j)
      = f (getCR rs2 j) := by
  rw [fixupGraphemePropagate]
  split
  · exact getCR_set_field f _ _ _ _ (hf _ _)
  · rfl

theorem fixupElseUpdate_length (isSpace : List Bool)
    (rs1 : List CharacterResult) (cr : CharacterResult) (i fC : Nat)
    (gbn : Bool) :
    (fixupElseUpdate isSpace rs1 cr i fC gbn).length = rs1.length := by
  simp only [fixupElseUpdate]
  rw [List.length_set, fixupGraphemePropagate_length,
    fixupBreakPropagate_length]

theorem fixupElseUpdate_stable {α : Sort _} (f : CharacterResult → α)
    (hf1 : ∀ (a : CharacterResult) (bt : BreakType)
      (ls le : LineEdgeBehaviour),
      f { a with breakType := bt, lineStart := ls, lineEnd := le } = f a)
    (hf2 : ∀ (a : CharacterResult) (ci : CursorInfo),
      f { a with cursorInfo := ci } = f a)
    (hf3 : ∀ (a : CharacterResult) (cp : Pt),
      f { a with cssPosition := cp, hidden := true } = f a)
    (isSpace : List Bool) (rs1 : List CharacterResult)
    (cr : CharacterResult) (i fC : Nat) (gbn : Bool) (j : Nat) :
    f (getCR (fixupElseUpdate isSpace rs1 cr i fC gbn) j)
      = f (getCR rs1 j) := by
  simp only [fixupElseUpdate]
  rw [getCR_set_field f _ _ _ _ (hf3 _ _)]
  rw [fixupGraphemePropagate_stable f hf2, fixupBreakPropagate_stable f hf1]

theorem fixupElseUpdate_stable_ne {α : Sort _} (f : CharacterResult → α)
    (hf1 : ∀ (a : CharacterResult) (bt : BreakType)
      (ls le : LineEdgeBehaviour),
      f { a with breakType := bt, lineStart := ls, lineEnd := le } = f a)
    (hf2 : ∀ (a : CharacterResult) (ci : CursorInfo),
      f { a with cursorInfo := ci } = f a)
    (isSpace : List Bool) (rs1 : List CharacterResult)
    (cr : CharacterResult) (i fC : Nat) (gbn : Bool) (j : Nat)
    (hij : i ≠ j) :
    f (getCR (fixupElseUpdate isSpace rs1 cr i fC gbn) j)
      = f (getCR rs1 j) := by
  simp only [fixupElseUpdate]
  rw [getCR_set_ne _ _ _ _ hij]
  rw [fixupGraphemePropagate_stable f hf2, fixupBreakPropagate_stable f hf1]

theorem fixupElseUpdate_at_i (isSpace : List Bool)
    (rs1 : List CharacterResult) (cr : CharacterResult) (i fC : Nat)
    (gbn : Bool) (hi : i < rs1.length) :
    (getCR (fixupElseUpdate isSpace rs1 cr i fC gbn) i).middle
        = (getCR rs1 i).middle ∧
    (getCR (fixupElseUpdate isSpace rs1 cr i fC gbn) i).hidden = true ∧
    (getCR (fixupElseUpdate isSpace rs1 cr i fC gbn) i).cssPosition
        = (getCR rs1 fC).cssPosition + (getCR rs1 fC).advance := by
  simp only [fixupElseUpdate]
  have hlen3 : i < (fixupGraphemePropagate
      (fixupBreakPropagate isSpace rs1 cr i fC) cr fC gbn).length := by
    rw [fixupGraphemePropagate_length, fixupBreakPropagate_length]
    exact hi
  rw [getCR_set_self _ _ _ hlen3]
  refine ⟨?_, rfl, ?_⟩
  · show (getCR (fixupGraphemePropagate
        (fixupBreakPropagate isSpace rs1 cr i fC) cr fC gbn) i).middle
      = (getCR rs1 i).middle
    rw [fixupGraphemePropagate_stable (fun a => a.middle) (fun _ _ => rfl),
      fixupBreakPropagate_stable (fun a => a.middle) (fun _ _ _ _ => rfl)]
  · show (getCR (fixupGraphemePropagate _ cr fC gbn) fC).cssPosition
        + (getCR (fixupGraphemePropagate _ cr fC gbn) fC).advance = _
    rw [fixupGraphemePropagate_stable (fun a => a.cssPosition)
        (fun _ _ => rfl),
      fixupBreakPropagate_stable (fun a => a.cssPosition)
        (fun _ _ _ _ => rfl),
      fixupGraphemePropagate_stable (fun a => a.advance) (fun _ _ => rfl),
      fixupBreakPropagate_stable (fun a => a.advance) (fun _ _ _ _ => rfl)]

theorem fixupStep_length (isSpace graphemeBreaks : List Bool) (i : Nat)
    (st : List CharacterResult × Int × Bool) :
    (fixupStep isSpace graphemeBreaks i st).1.length = st.1.length := by
  simp only [fixupStep]
  split
  · rw [fixupRepUpdate_length]
    simp
  · rw [fixupElseUpdate_length]
    simp

theorem fixupStep_stable {α : Sort _} (f : CharacterResult → α)
    (hf0 : ∀ (a : CharacterResult) (m : Bool), f { a with middle := m } = f a)
    (hf1 : ∀ (a : CharacterResult) (bt : BreakType)
      (ls le : LineEdgeBehaviour),
      f { a with breakType := bt, lineStart := ls, lineEnd := le } = f a)
    (hf2 : ∀ (a : CharacterResult) (ci : CursorInfo),
      f { a with cursorInfo := ci } = f a)
    (hf3 : ∀ (a : CharacterResult) (cp : Pt),
      f { a with cssPosition := cp, hidden := true } = f a)
    (isSpace graphemeBreaks : List Bool) (i : Nat)
    (st : List CharacterResult × Int × Bool) (j : Nat) :
    f (getCR (fixupStep isSpace graphemeBreaks i st).1 j)
      = f (getCR st.1 j) := by
  simp only [fixupStep]
  split
  · rw [fixupRepUpdate_stable f hf2]
    exact getCR_set_field f _ _ _ _ (hf0 _ _)
  · rw [fixupElseUpdate_stable f hf1 hf2 hf3]
    exact getCR_set_field f _ _ _ _ (hf0 _ _)

theorem fixupStep_stable_ne {α : Sort _} (f : CharacterResult → α)
    (hf1 : ∀ (a : CharacterResult) (bt : BreakType)
      (ls le : LineEdgeBehaviour),
      f { a with breakType := bt, lineStart := ls, lineEnd := le } = f a)
    (hf2 : ∀ (a : CharacterResult) (ci : CursorInfo),
      f { a with cursorInfo := ci } = f a)
    (isSpace graphemeBreaks : List Bool) (i : Nat)
    (st : List CharacterResult × Int × Bool) (j : Nat) (hij : i ≠ j) :
    f (getCR (fixupStep isSpace graphemeBreaks i st).1 j)
      = f (getCR st.1 j) := by
  simp only [fixupStep]
  split
  · rw [fixupRepUpdate_stable f hf2, getCR_set_ne _ _ _ _ hij]
  · rw [fixupElseUpdate_stable_ne f hf1 hf2 _ _ _ _ _ _ _ hij,
      getCR_set_ne _ _ _ _ hij]

theorem fixupStep_firstCluster (isSpace graphemeBreaks : List Bool) (i : Nat)
    (st : List CharacterResult × Int × Bool) (hlen : i < st.1.length) :
    (fixupStep isSpace graphemeBreaks i st).2.1 =
      if (getCR st.1 i).addressable = true
          ∧ ¬((getCR st.1 i).visualIndex = -1)
      then Int.ofNat i else st.2.1 := by
  simp only [fixupStep]
  rw [getCR_set_self _ _ _ hlen]
  by_cases hv : (getCR st.1 i).addressable = true
      ∧ ¬((getCR st.1 i).visualIndex = -1)
  · rw [if_pos ⟨hv.1, decide_eq_false hv.2⟩, if_pos hv]
  · rw [if_neg (fun hcon => hv ⟨hcon.1, of_decide_eq_false hcon.2⟩),
      if_neg hv]

theorem fixupStep_cssPosition_visible (isSpace graphemeBreaks : List Bool)
    (i : Nat) (st : List CharacterResult × Int × Bool) (j : Nat)
    (hvis : (getCR st.1 j).addressable = true
      ∧ ¬((getCR st.1 j).visualIndex = -1)) :
    (getCR (fixupStep isSpace graphemeBreaks i st).1 j).cssPosition
      = (getCR st.1 j).cssPosition := by
  by_cases hij : i = j
  · subst hij
    by_cases hlen : i < st.1.length
    · simp only [fixupStep]
      rw [getCR_set_self _ _ _ hlen]
      rw [if_pos ⟨hvis.1, decide_eq_false hvis.2⟩]
      show (getCR (fixupRepUpdate _ _ _) i).cssPosition = _
      rw [fixupRepUpdate_stable (fun a => a.cssPosition) (fun _ _ => rfl)]
      exact getCR_set_field (fun a => a.cssPosition) _ _ _ _ rfl
    · exfalso
      have hd : getCR st.1 i = defaultCharacterResult := by
        simp [getCR, List.getD, List.getElem?_eq_none, le_of_not_lt hlen]
      rw [hd] at hvis
      exact hvis.2 rfl
  · exact fixupStep_stable_ne (fun a => a.cssPosition) (fun _ _ _ _ => rfl)
      (fun _ _ => rfl) isSpace graphemeBreaks i st j hij

theorem fixupStep_at_invisible (isSpace graphemeBreaks : List Bool) (i : Nat)
    (st : List CharacterResult × Int × Bool) (hlen : i < st.1.length)
    (hinv : ¬((getCR st.1 i).addressable = true
      ∧ ¬((getCR st.1 i).visualIndex = -1))) :
    (getCR (fixupStep isSpace graphemeBreaks i st).1 i).middle
        = decide ((getCR st.1 i).visualIndex = -1) ∧
    (getCR (fixupStep isSpace graphemeBreaks i st).1 i).hidden = true ∧
    (getCR (fixupStep isSpace graphemeBreaks i st).1 i).cssPosition
        = (getCR st.1 (max 0 st.2.1).toNat).cssPosition
          + (getCR st.1 (max 0 st.2.1).toNat).advance := by
  simp only [fixupStep]
  rw [getCR_set_self _ _ _ hlen]
  rw [if_neg (fun hcon => hinv ⟨hcon.1, of_decide_eq_false hcon.2⟩)]
  have hi1 : i < (st.1.set i
      { getCR st.1 i with
          middle := decide ((getCR st.1 i).visualIndex = -1) }).length := by
    simpa using hlen
  dsimp only
  refine ⟨?_, (fixupElseUpdate_at_i _ _ _ _ _ _ hi1).2.1, ?_⟩
  · rw [(fixupElseUpdate_at_i _ _ _ _ _ _ hi1).1, getCR_set_self _ _ _ hlen]
  · rw [(fixupElseUpdate_at_i _ _ _ _ _ _ hi1).2.2]
    rw [getCR_set_field (fun a => a.cssPosition) st.1
      { getCR st.1 i with
          middle := decide ((getCR st.1 i).visualIndex = -1) }
      i ((max 0 st.2.1).toNat) rfl]
    rw [getCR_set_field (fun a => a.advance) st.1
      { getCR st.1 i with
          middle := decide ((getCR st.1 i).visualIndex = -1) }
      i ((max 0 st.2.1).toNat) rfl]

/-!
### Lemmas about the whole fixup loop
-/

theorem fixupFold_succ (isSpace graphemeBreaks : List Bool) (n : Nat)
    (rs : List CharacterResult) :
    fixupFold isSpace graphemeBreaks (n + 1) rs
      = fixupStep isSpace graphemeBreaks n
          (fixupFold isSpace graphemeBreaks n rs) := by
  rw [fixupFold, fixupFold, List.range_succ, List.foldl_append]
  rfl

theorem fixupFold_length (isSpace graphemeBreaks : List Bool) (n : Nat)
    (rs : List CharacterResult) :
    (fixupFold isSpace graphemeBreaks n rs).1.length = rs.length := by
  induction n with
  | zero => rfl
  | succ n ih => rw [fixupFold_succ, fixupStep_length, ih]

theorem fixupFold_stable {α : Sort _} (f : CharacterResult → α)
    (hf0 : ∀ (a : CharacterResult) (m : Bool), f { a with middle := m } = f a)
    (hf1 : ∀ (a : CharacterResult) (bt : BreakType)
      (ls le : LineEdgeBehaviour),
      f { a with breakType := bt, lineStart := ls, lineEnd := le } = f a)
    (hf2 : ∀ (a : CharacterResult) (ci : CursorInfo),
      f { a with cursorInfo := ci } = f a)
    (hf3 : ∀ (a : CharacterResult) (cp : Pt),
      f { a with cssPosition := cp, hidden := true } = f a)
    (isSpace graphemeBreaks : List Bool) (n : Nat)
    (rs : List CharacterResult) (j : Nat) :
    f (getCR (fixupFold isSpace graphemeBreaks n rs).1 j)
      = f (getCR rs j) := by
  induction n with
  | zero => rfl
  | succ n ih =>
    rw [fixupFold_succ, fixupStep_stable f hf0 hf1 hf2 hf3, ih]

theorem lastVisibleIn_succ (rs : List CharacterResult) (n : Nat) :
    lastVisibleIn rs (n + 1) =
      if (getCR rs n).addressable = true ∧ ¬((getCR rs n).visualIndex = -1)
      then Int.ofNat n else lastVisibleIn rs n := by
  rw [lastVisibleIn, lastVisibleIn, List.range_succ, List.foldl_append]
  rfl

theorem lastVisibleIn_spec (rs : List CharacterResult) (n : Nat) (k : Nat)
    (h : lastVisibleIn rs n = Int.ofNat k) :
    (getCR rs k).addressable = true ∧ ¬((getCR rs k).visualIndex = -1)
      ∧ k < n := by
  induction n with
  | zero =>
    exfalso
    rw [lastVisibleIn] at h
    simp at h
  | succ n ih =>
    rw [lastVisibleIn_succ] at h
    by_cases hc : (getCR rs n).addressable = true
        ∧ ¬((getCR rs n).visualIndex = -1)
    · rw [if_pos hc] at h
      have : n = k := Int.ofNat.inj h
      subst this
      exact ⟨hc.1, hc.2, Nat.lt_succ_self n⟩
    · rw [if_neg hc] at h
      have := ih h
      exact ⟨this.1, this.2.1, Nat.lt_succ_of_lt this.2.2⟩

theorem fixupFold_firstCluster (isSpace graphemeBreaks : List Bool) (n : Nat)
    (rs : List CharacterResult) (hn : n ≤ rs.length) :
    (fixupFold isSpace graphemeBreaks n rs).2.1 = lastVisibleIn rs n := by
  induction n with
  | zero => rfl
  | succ n ih =>
    have hn' : n ≤ rs.length := Nat.le_of_succ_le hn
    rw [fixupFold_succ]
    rw [fixupStep_firstCluster _ _ _ _
      (by rw [fixupFold_length]; omega)]
    rw [lastVisibleIn_succ, ih hn']
    have ha : (getCR (fixupFold isSpace graphemeBreaks n rs).1 n).addressable
        = (getCR rs n).addressable :=
      fixupFold_stable (fun a => a.addressable) (fun _ _ => rfl)
        (fun _ _ _ _ => rfl) (fun _ _ => rfl) (fun _ _ => rfl) _ _ n rs n
    have hv : (getCR (fixupFold isSpace graphemeBreaks n rs).1 n).visualIndex
        = (getCR rs n).visualIndex :=
      fixupFold_stable (fun a => a.visualIndex) (fun _ _ => rfl)
        (fun _ _ _ _ => rfl) (fun _ _ => rfl) (fun _ _ => rfl) _ _ n rs n
    rw [ha, hv]

theorem fixupFold_cssPosition_visible (isSpace graphemeBreaks : List Bool)
    (n : Nat) (rs : List CharacterResult) (j : Nat)
    (hvis : (getCR rs j).addressable = true
      ∧ ¬((getCR rs j).visualIndex = -1)) :
    (getCR (fixupFold isSpace graphemeBreaks n rs).1 j).cssPosition
      = (getCR rs j).cssPosition := by
  induction n with
  | zero => rfl
  | succ n ih =>
    rw [fixupFold_succ]
    have ha : (getCR (fixupFold isSpace graphemeBreaks n rs).1 j).addressable
        = (getCR rs j).addressable :=
      fixupFold_stable (fun a => a.addressable) (fun _ _ => rfl)
        (fun _ _ _ _ => rfl) (fun _ _ => rfl) (fun _ _ => rfl) _ _ n rs j
    have hv : (getCR (fixupFold isSpace graphemeBreaks n rs).1 j).visualIndex
        = (getCR rs j).visualIndex :=
      fixupFold_stable (fun a => a.visualIndex) (fun _ _ => rfl)
        (fun _ _ _ _ => rfl) (fun _ _ => rfl) (fun _ _ => rfl) _ _ n rs j
    rw [fixupStep_cssPosition_visible _ _ _ _ _ (by rw [ha, hv]; exact hvis)]
    exact ih

theorem fixupFold_at_invisible (isSpace graphemeBreaks : List Bool)
    (rs : List CharacterResult) (n i fc : Nat) (hin : i < n)
    (hn : n ≤ rs.length)
    (hinv : ¬((getCR rs i).addressable = true
      ∧ ¬((getCR rs i).visualIndex = -1)))
    (hrep : lastVisibleIn rs i = Int.ofNat fc) :
    (getCR (fixupFold isSpace graphemeBreaks n rs).1 i).middle
        = decide ((getCR rs i).visualIndex = -1) ∧
    (getCR (fixupFold isSpace graphemeBreaks n rs).1 i).hidden = true ∧
    (getCR (fixupFold isSpace graphemeBreaks n rs).1 i).cssPosition
        = (getCR rs fc).cssPosition + (getCR rs fc).advance := by
  induction n with
  | zero => omega
  | succ n ih =>
    by_cases hi : i = n
    · -- the step that processes index i
      subst hi
      rw [fixupFold_succ]
      have hlen : i < (fixupFold isSpace graphemeBreaks i rs).1.length := by
        rw [fixupFold_length]
        omega
      have ha : (getCR (fixupFold isSpace graphemeBreaks i rs).1
            i).addressable = (getCR rs i).addressable :=
        fixupFold_stable (fun a => a.addressable) (fun _ _ => rfl)
          (fun _ _ _ _ => rfl) (fun _ _ => rfl) (fun _ _ => rfl) _ _ i rs i
      have hv : (getCR (fixupFold isSpace graphemeBreaks i rs).1
            i).visualIndex = (getCR rs i).visualIndex :=
        fixupFold_stable (fun a => a.visualIndex) (fun _ _ => rfl)
          (fun _ _ _ _ => rfl) (fun _ _ => rfl) (fun _ _ => rfl) _ _ i rs i
      have hstep := fixupStep_at_invisible isSpace graphemeBreaks i
        (fixupFold isSpace graphemeBreaks i rs) hlen
        (by rw [ha, hv]; exact hinv)
      have hfc : ((max 0
          (fixupFold isSpace graphemeBreaks i rs).2.1).toNat) = fc := by
        rw [fixupFold_firstCluster isSpace graphemeBreaks i rs (by omega),
          hrep]
        simp
      rw [hfc] at hstep
      have hfcvis := lastVisibleIn_spec rs i fc hrep
      have hcss : (getCR (fixupFold isSpace graphemeBreaks i rs).1
            fc).cssPosition = (getCR rs fc).cssPosition :=
        fixupFold_cssPosition_visible isSpace graphemeBreaks i rs fc
          ⟨hfcvis.1, hfcvis.2.1⟩
      have hadv : (getCR (fixupFold isSpace graphemeBreaks i rs).1
            fc).advance = (getCR rs fc).advance :=
        fixupFold_stable (fun a => a.advance) (fun _ _ => rfl)
          (fun _ _ _ _ => rfl) (fun _ _ => rfl) (fun _ _ => rfl) _ _ i rs fc
      rw [hcss, hadv, hv] at hstep
      exact hstep
    · -- a later iteration: index i is untouched
      have hi' : i < n := by omega
      have ihn := ih hi' (by omega)
      rw [fixupFold_succ]
      have hne : n ≠ i := fun hc => hi hc.symm
      rw [fixupStep_stable_ne (fun a => a.middle) (fun _ _ _ _ => rfl)
        (fun _ _ => rfl) isSpace graphemeBreaks n _ i hne]
      rw [fixupStep_stable_ne (fun a => a.hidden) (fun _ _ _ _ => rfl)
        (fun _ _ => rfl) isSpace graphemeBreaks n _ i hne]
      rw [fixupStep_stable_ne (fun a => a.cssPosition) (fun _ _ _ _ => rfl)
        (fun _ _ => rfl) isSpace graphemeBreaks n _ i hne]
      exact ihn

theorem fixupEpilogue_length (p : Nat)
    (st : List CharacterResult × Int × Bool) :
    (fixupEpilogue p st).1.length = st.1.length := by
  simp only [fixupEpilogue]
  split
  · simp
  · rfl

theorem fixupEpilogue_snd (p : Nat) (st : List CharacterResult × Int × Bool) :
    (fixupEpilogue p st).2 = st.2.1 := rfl

theorem fixupEpilogue_stable {α : Sort _} (f : CharacterResult → α)
    (hf : ∀ (a : CharacterResult) (ci : CursorInfo),
      f { a with cursorInfo := ci } = f a)
    (p : Nat) (st : List CharacterResult × Int × Bool) (j : Nat) :
    f (getCR (fixupEpilogue p st).1 j) = f (getCR st.1 j) := by
  simp only [fixupEpilogue]
  split
  · exact getCR_set_field f _ _ _ _ (hf _ _)
  · rfl

/-!
### Lemmas about the glyph retrieval pass
-/

theorem glyphPassGo_length (glyphs : List RaqmGlyph) :
    ∀ (rs : List CharacterResult) (i : Nat),
    (glyphPassGo rs i glyphs).length = rs.length := by
  induction glyphs with
  | nil => intro rs i; rfl
  | cons g rest ih =>
    intro rs i
    rw [glyphPassGo]
    split
    · split
      · rw [ih]
        simp
      · exact ih rs (i + 1)
    · exact ih rs (i + 1)

theorem glyphPassGo_untouched (glyphs : List RaqmGlyph) :
    ∀ (rs : List CharacterResult) (i j : Nat),
    (∀ g ∈ glyphs, g.cluster = j → g.success = false) →
    getCR (glyphPassGo rs i glyphs) j = getCR rs j := by
  induction glyphs with
  | nil => intro rs i j _; rfl
  | cons g rest ih =>
    intro rs i j hfail
    rw [glyphPassGo]
    have hrest : ∀ g ∈ rest, g.cluster = j → g.success = false :=
      fun g hg => hfail g (List.mem_cons_of_mem _ hg)
    split
    · split
      · case isTrue hsucc =>
        have hne : g.cluster ≠ j := by
          intro hc
          have := hfail g (List.mem_cons_self g rest) hc
          rw [hsucc] at this
          cases this
        rw [ih _ (i + 1) j hrest, getCR_set_ne _ _ _ _ hne]
      · exact ih rs (i + 1) j hrest
    · exact ih rs (i + 1) j hrest

theorem glyphPass_length (rs : List CharacterResult)
    (glyphs : List RaqmGlyph) : (glyphPass rs glyphs).length = rs.length :=
  glyphPassGo_length glyphs rs 0

theorem glyphPass_untouched (rs : List CharacterResult)
    (glyphs : List RaqmGlyph) (j : Nat)
    (hfail : ∀ g ∈ glyphs, g.cluster = j → g.success = false) :
    getCR (glyphPass rs glyphs) j = getCR rs j :=
  glyphPassGo_untouched glyphs rs 0 j hfail

/-!
### Lemmas about text anchoring
-/

theorem shiftRangeGo_length (s e : Nat) (p : Pt) :
    ∀ (k : Nat) (res : List CharacterResult),
    (shiftRangeGo s e p k res).length = res.length := by
  intro k res
  induction res generalizing k with
  | nil => rfl
  | cons cr rest ih => simp [shiftRangeGo, ih]

theorem shiftRange_length (res : List CharacterResult) (s e : Nat) (p : Pt) :
    (shiftRange res s e p).length = res.length :=
  shiftRangeGo_length s e p 0 res

theorem shiftRangeGo_getCR (s e : Nat) (p : Pt) :
    ∀ (res : List CharacterResult) (k j : Nat),
    getCR (shiftRangeGo s e p k res) j =
      if s ≤ k + j ∧ k + j < e ∧ j < res.length then
        { getCR res j with
            finalPosition := (getCR res j).finalPosition + p }
      else getCR res j := by
  intro res
  induction res with
  | nil =>
    intro k j
    rw [if_neg (by intro h; exact absurd h.2.2 (by simp))]
    rfl
  | cons cr rest ih =>
    intro k j
    cases j with
    | zero =>
      show getCR ((if s ≤ k ∧ k < e then _ else cr) :: _) 0 = _
      by_cases hin : s ≤ k ∧ k < e
      · rw [if_pos hin, if_pos ⟨by omega, by omega, by simp⟩]
        rfl
      · rw [if_neg hin, if_neg (by intro h; exact hin ⟨by omega, by omega⟩)]
        rfl
    | succ n =>
      show getCR (shiftRangeGo s e p (k + 1) rest) n = _
      rw [ih (k + 1) n]
      have harith : k + 1 + n = k + (n + 1) := by omega
      by_cases hin : s ≤ k + 1 + n ∧ k + 1 + n < e ∧ n < rest.length
      · rw [if_pos hin,
          if_pos ⟨by omega, by omega, by simpa using hin.2.2⟩]
        rfl
      · rw [if_neg hin, if_neg ?hne]
        · rfl
        case hne =>
          intro h
          exact hin ⟨by omega, by omega, by simpa using h.2.2⟩

theorem shiftRange_getCR_in (res : List CharacterResult) (s e : Nat)
    (p : Pt) (j : Nat) (hs : s ≤ j) (he : j < e) (hj : j < res.length) :
    getCR (shiftRange res s e p) j =
      { getCR res j with
          finalPosition := (getCR res j).finalPosition + p } := by
  rw [shiftRange, shiftRangeGo_getCR]
  rw [if_pos ⟨by omega, by omega, hj⟩]

theorem shiftRange_getCR_out (res : List CharacterResult) (s e : Nat)
    (p : Pt) (j : Nat) (hout : ¬(s ≤ j ∧ j < e)) :
    getCR (shiftRange res s e p) j = getCR res j := by
  rw [shiftRange, shiftRangeGo_getCR]
  rw [if_neg (fun h => hout ⟨by omega, by omega⟩)]

theorem extentScanGo_ge (res : List CharacterResult) (isHorizontal : Bool)
    (start : Nat) : ∀ (fuel i : Nat) (a b : ℚ),
    i ≤ (extentScanGo res isHorizontal start fuel i a b).1 := by
  intro fuel
  induction fuel with
  | zero => intro i a b; exact le_refl i
  | succ fuel ih =>
    intro i a b
    rw [extentScanGo]
    dsimp only
    split
    · split
      · exact Nat.le_of_succ_le (ih (i + 1) a b)
      · split
        · exact le_refl i
        · split
          · exact Nat.le_of_succ_le (ih (i + 1) _ _)
          · exact Nat.le_of_succ_le (ih (i + 1) _ _)
    · exact le_refl i

theorem extentScan_gt (res : List CharacterResult) (isHorizontal : Bool)
    (start : Nat) (hs : start < res.length) :
    start < (extentScan res isHorizontal start).1 := by
  rw [extentScan]
  have hf : res.length - start = (res.length - start - 1) + 1 := by omega
  rw [hf, extentScanGo, if_pos hs]
  dsimp only
  split
  · exact extentScanGo_ge res isHorizontal start _ (start + 1) _ _
  · split
    · case isTrue h => omega
    · split
      · exact extentScanGo_ge res isHorizontal start _ (start + 1) _ _
      · exact extentScanGo_ge res isHorizontal start _ (start + 1) _ _

theorem extentScanGo_le_of_anchored (res : List CharacterResult)
    (isHorizontal : Bool) (start s : Nat) (hs : s < res.length)
    (ha : (getCR res s).addressable = true)
    (hc : (getCR res s).anchored_chunk = true) (hgt : start < s) :
    ∀ (fuel i : Nat) (a b : ℚ), i ≤ s →
    (extentScanGo res isHorizontal start fuel i a b).1 ≤ s := by
  intro fuel
  induction fuel with
  | zero => intro i a b hi; exact hi
  | succ fuel ih =>
    intro i a b hi
    rw [extentScanGo]
    by_cases his : i = s
    · subst his
      rw [if_pos hs]
      dsimp only
      rw [if_neg (by rw [ha]; simp), if_pos ⟨hc, hgt⟩]
    · have hilt : i < s := by omega
      dsimp only
      split
      · split
        · exact ih (i + 1) a b (by omega)
        · split
          · exact hi
          · split
            · exact ih (i + 1) _ _ (by omega)
            · exact ih (i + 1) _ _ (by omega)
      · exact hi

theorem extentScanGo_congr (isHorizontal : Bool) (start : Nat)
    (cur res : List CharacterResult) (hlen : cur.length = res.length) :
    ∀ (fuel i : Nat) (a b : ℚ),
    (∀ k, i ≤ k → getCR cur k = getCR res k) →
    extentScanGo cur isHorizontal start fuel i a b
      = extentScanGo res isHorizontal start fuel i a b := by
  intro fuel
  induction fuel with
  | zero => intro i a b _; rfl
  | succ fuel ih =>
    intro i a b hagree
    rw [extentScanGo, extentScanGo, hlen]
    by_cases hi : i < res.length
    · rw [if_pos hi, if_pos hi]
      dsimp only
      rw [hagree i (le_refl i)]
      by_cases hadd : (getCR res i).addressable = false
      · rw [if_pos hadd, if_pos hadd,
          ih (i + 1) a b (fun k hk => hagree k (by omega))]
      · rw [if_neg hadd, if_neg hadd]
        by_cases hbrk : (getCR res i).anchored_chunk = true ∧ i > start
        · rw [if_pos hbrk, if_pos hbrk]
        · rw [if_neg hbrk, if_neg hbrk]
          by_cases hanch : (getCR res i).anchored_chunk = true
          · rw [if_pos hanch, if_pos hanch,
              ih (i + 1) _ _ (fun k hk => hagree k (by omega))]
          · rw [if_neg hanch, if_neg hanch,
              ih (i + 1) _ _ (fun k hk => hagree k (by omega))]
    · rw [if_neg hi, if_neg hi]

theorem chunkEndGo_ge (res : List CharacterResult) :
    ∀ (fuel i : Nat), i ≤ chunkEndGo res fuel i := by
  intro fuel
  induction fuel with
  | zero => intro i; exact le_refl i
  | succ fuel ih =>
    intro i
    rw [chunkEndGo]
    split
    · split
      · exact le_refl i
      · exact Nat.le_of_succ_le (ih (i + 1))
    · exact le_refl i

theorem chunkEndGo_le (res : List CharacterResult) :
    ∀ (fuel i : Nat), i ≤ res.length → chunkEndGo res fuel i ≤ res.length := by
  intro fuel
  induction fuel with
  | zero => intro i hi; exact hi
  | succ fuel ih =>
    intro i hi
    rw [chunkEndGo]
    split
    · split
      · exact hi
      · exact ih (i + 1) (by omega)
    · exact hi

theorem extentFoldF_not_addressable (res : List CharacterResult)
    (isHorizontal : Bool) (ab : ℚ × ℚ) (k : Nat)
    (h : (getCR res k).addressable = false) :
    extentFoldF res isHorizontal ab k = ab := by
  rw [extentFoldF]
  dsimp only
  rw [if_neg (by rw [h]; simp)]

theorem extentScanGo_lockstep (res : List CharacterResult)
    (isHorizontal : Bool) (s : Nat) : ∀ (fuel i : Nat) (a b : ℚ), s < i →
    extentScanGo res isHorizontal s fuel i a b
      = (chunkEndGo res fuel i,
        (List.range' i (chunkEndGo res fuel i - i)).foldl
          (extentFoldF res isHorizontal) (a, b)) := by
  intro fuel
  induction fuel with
  | zero =>
    intro i a b _
    show (i, a, b) = (i, (List.range' i (i - i)).foldl _ (a, b))
    rw [Nat.sub_self]
    rfl
  | succ fuel ih =>
    intro i a b hi
    rw [extentScanGo, chunkEndGo]
    by_cases hlen : i < res.length
    · rw [if_pos hlen, if_pos hlen]
      dsimp only
      by_cases hadd : (getCR res i).addressable = false
      · rw [if_pos hadd,
          if_neg (fun hcon => by rw [hadd] at hcon; cases hcon.1)]
        rw [ih (i + 1) a b (by omega)]
        have hE := chunkEndGo_ge res fuel (i + 1)
        have hr : List.range' i (chunkEndGo res fuel (i + 1) - i)
            = i :: List.range' (i + 1)
                (chunkEndGo res fuel (i + 1) - (i + 1)) := by
          have h2 : chunkEndGo res fuel (i + 1) - i
              = (chunkEndGo res fuel (i + 1) - (i + 1)) + 1 := by omega
          rw [h2, List.range'_succ]
        rw [hr]
        show _ = (_, List.foldl _ (extentFoldF res isHorizontal (a, b) i) _)
        rw [extentFoldF_not_addressable res isHorizontal (a, b) i hadd]
      · have haddt : (getCR res i).addressable = true := by
          cases h : (getCR res i).addressable
          · exact absurd h hadd
          · rfl
        rw [if_neg hadd]
        by_cases hanch : (getCR res i).anchored_chunk = true
        · rw [if_pos ⟨hanch, hi⟩, if_pos ⟨haddt, hanch⟩, Nat.sub_self]
          rfl
        · rw [if_neg (show ¬((getCR res i).anchored_chunk = true ∧ i > s)
              from fun hcon => hanch hcon.1),
            if_neg (show ¬((getCR res i).addressable = true
                ∧ (getCR res i).anchored_chunk = true)
              from fun hcon => hanch hcon.2)]
          rw [if_neg hanch]
          rw [ih (i + 1) _ _ (by omega)]
          have hE := chunkEndGo_ge res fuel (i + 1)
          have hr : List.range' i (chunkEndGo res fuel (i + 1) - i)
              = i :: List.range' (i + 1)
                  (chunkEndGo res fuel (i + 1) - (i + 1)) := by
            have h2 : chunkEndGo res fuel (i + 1) - i
                = (chunkEndGo res fuel (i + 1) - (i + 1)) + 1 := by omega
            rw [h2, List.range'_succ]
          rw [hr]
          show _ = (_, List.foldl _ (extentFoldF res isHorizontal (a, b) i) _)
          rw [show extentFoldF res isHorizontal (a, b) i
              = (min a (min (axisCoord isHorizontal
                    (getCR res i).finalPosition)
                  (axisCoord isHorizontal (getCR res i).finalPosition
                    + axisCoord isHorizontal (getCR res i).advance)),
                max b (max (axisCoord isHorizontal
                    (getCR res i).finalPosition)
                  (axisCoord isHorizontal (getCR res i).finalPosition
                    + axisCoord isHorizontal (getCR res i).advance))) by
            rw [extentFoldF]
            dsimp only
            rw [if_pos haddt]]
    · rw [if_neg hlen, if_neg hlen, Nat.sub_self]
      rfl

theorem extentScan_eq_chunk (res : List CharacterResult)
    (isHorizontal : Bool) (s : Nat) (hs : s < res.length)
    (ha : (getCR res s).addressable = true)
    (hc : (getCR res s).anchored_chunk = true) :
    (extentScan res isHorizontal s).1 = chunkEnd res s ∧
    (extentScan res isHorizontal s).2
      = chunkExtent res isHorizontal s (chunkEnd res s) := by
  rw [extentScan]
  have hf : res.length - s = (res.length - (s + 1)) + 1 := by omega
  rw [hf, extentScanGo, if_pos hs]
  dsimp only
  rw [if_neg (by rw [ha]; simp)]
  rw [if_neg (show ¬((getCR res s).anchored_chunk = true ∧ s > s)
    from fun hcon => by omega)]
  rw [if_pos hc]
  rw [extentScanGo_lockstep res isHorizontal s (res.length - (s + 1)) (s + 1)
    _ _ (by omega)]
  exact ⟨rfl, rfl⟩

theorem axisCoord_add (isHorizontal : Bool) (p q : Pt) :
    axisCoord isHorizontal (p + q)
      = axisCoord isHorizontal p + axisCoord isHorizontal q := by
  cases isHorizontal
  · rfl
  · rfl

theorem anchorLoop_below (isHorizontal : Bool) :
    ∀ (fuel : Nat) (res : List CharacterResult) (start j : Nat), j < start →
    getCR (anchorLoop isHorizontal fuel res start) j = getCR res j := by
  intro fuel
  induction fuel with
  | zero => intro res start j _; rfl
  | succ fuel ih =>
    intro res start j hj
    rw [anchorLoop]
    split
    · dsimp only
      have hge : start ≤ (extentScan res isHorizontal start).1 := by
        rw [extentScan]
        exact extentScanGo_ge res isHorizontal start
          (res.length - start) start 0 0
      have hlt2 : j < (extentScan res isHorizontal start).1 := by omega
      rw [ih _ _ j hlt2]
      exact shiftRange_getCR_out _ _ _ _ j (fun hin => by omega)
    · rfl

theorem chunkEnd_gt (res : List CharacterResult) (s : Nat) :
    s < chunkEnd res s := by
  have := chunkEndGo_ge res (res.length - (s + 1)) (s + 1)
  rw [chunkEnd]
  omega

theorem chunkEnd_le (res : List CharacterResult) (s : Nat)
    (hs : s < res.length) : chunkEnd res s ≤ res.length := by
  rw [chunkEnd]
  exact chunkEndGo_le res (res.length - (s + 1)) (s + 1) (by omega)

theorem anchorLoop_chunk_final (isHorizontal : Bool)
    (res : List CharacterResult) (s : Nat) (hs : s < res.length)
    (ha : (getCR res s).addressable = true)
    (hc : (getCR res s).anchored_chunk = true) :
    ∀ (fuel : Nat) (cur : List CharacterResult) (start : Nat),
    cur.length = res.length → start ≤ s →
    (∀ k, s ≤ k → getCR cur k = getCR res k) →
    res.length - start < fuel →
    ∀ j, s ≤ j → j < chunkEnd res s →
    getCR (anchorLoop isHorizontal fuel cur start) j
      = { getCR res j with
          finalPosition := (getCR res j).finalPosition
            + chunkShiftP res isHorizontal s } := by
  intro fuel
  induction fuel with
  | zero => intro cur start _ _ _ hfuel; omega
  | succ fuel ih =>
    intro cur start hlen hss hagree hfuel j hj1 hj2
    have hE := (extentScan_eq_chunk res isHorizontal s hs ha hc).1
    rw [anchorLoop, if_pos (show start < cur.length by omega)]
    dsimp only
    rcases Nat.eq_or_lt_of_le hss with he | hlt
    · -- this iteration scans exactly the chunk at s
      subst he
      have hscan : extentScan cur isHorizontal start
          = extentScan res isHorizontal start := by
        rw [extentScan, extentScan, hlen]
        exact extentScanGo_congr isHorizontal start cur res hlen _ start 0 0
          (fun k hk => hagree k hk)
      have hcur_s : getCR cur start = getCR res start :=
        hagree start (le_refl start)
      have hshift : ∀ a b : ℚ, anchorShift cur isHorizontal start a b
          = anchorShift res isHorizontal start a b := by
        intro a b
        rw [anchorShift, anchorShift, hcur_s]
      rw [hscan, hshift]
      have hjlt : j < (extentScan res isHorizontal start).1 := by
        rw [hE]
        exact hj2
      have hjlen : j < cur.length := by
        have h4 := chunkEnd_le res start hs
        omega
      rw [anchorLoop_below isHorizontal fuel _ _ j hjlt]
      rw [shiftRange_getCR_in cur start (extentScan res isHorizontal start).1
        _ j hj1 hjlt hjlen]
      rw [hagree j hj1]
      rw [chunkShiftP]
    · -- the scanned chunk ends at or before s; recurse
      have hcs_add : (getCR cur s).addressable = true := by
        rw [hagree s (le_refl s)]
        exact ha
      have hcs_anc : (getCR cur s).anchored_chunk = true := by
        rw [hagree s (le_refl s)]
        exact hc
      have hi_le : (extentScan cur isHorizontal start).1 ≤ s := by
        rw [extentScan]
        exact extentScanGo_le_of_anchored cur isHorizontal start s (by omega)
          hcs_add hcs_anc hlt _ start 0 0 (le_of_lt hlt)
      have hi_gt : start < (extentScan cur isHorizontal start).1 :=
        extentScan_gt cur isHorizontal start (by omega)
      apply ih
      · rw [shiftRange_length]
        exact hlen
      · exact hi_le
      · intro k hk
        rw [shiftRange_getCR_out cur start _ _ k
          (fun hin => absurd hin.2 (by omega))]
        exact hagree k hk
      · omega
      · exact hj1
      · exact hj2

theorem extentFold_translated (out res : List CharacterResult)
    (isHorizontal : Bool) (p : Pt) :
    ∀ (n t : Nat) (acc : ℚ × ℚ),
    (∀ k, t ≤ k → k < t + n →
      getCR out k = { getCR res k with
        finalPosition := (getCR res k).finalPosition + p }) →
    (List.range' t n).foldl (extentFoldF out isHorizontal)
        (acc.1 + axisCoord isHorizontal p, acc.2 + axisCoord isHorizontal p)
      = (((List.range' t n).foldl (extentFoldF res isHorizontal) acc).1
          + axisCoord isHorizontal p,
        ((List.range' t n).foldl (extentFoldF res isHorizontal) acc).2
          + axisCoord isHorizontal p) := by
  intro n
  induction n with
  | zero => intro t acc _; rfl
  | succ n ih =>
    intro t acc hk
    rw [List.range'_succ]
    have hstep : extentFoldF out isHorizontal
        (acc.1 + axisCoord isHorizontal p, acc.2 + axisCoord isHorizontal p)
        t = ((extentFoldF res isHorizontal acc t).1
            + axisCoord isHorizontal p,
          (extentFoldF res isHorizontal acc t).2
            + axisCoord isHorizontal p) := by
      rw [extentFoldF, extentFoldF]
      dsimp only
      rw [hk t (le_refl t) (by omega)]
      dsimp only
      by_cases hadd : (getCR res t).addressable = true
      · rw [if_pos hadd, if_pos hadd]
        rw [axisCoord_add]
        dsimp only
        have h1 : min (acc.1 + axisCoord isHorizontal p)
            (min (axisCoord isHorizontal (getCR res t).finalPosition
                + axisCoord isHorizontal p)
              (axisCoord isHorizontal (getCR res t).finalPosition
                + axisCoord isHorizontal p
                + axisCoord isHorizontal (getCR res t).advance))
            = min acc.1
                (min (axisCoord isHorizontal (getCR res t).finalPosition)
                  (axisCoord isHorizontal (getCR res t).finalPosition
                    + axisCoord isHorizontal (getCR res t).advance))
              + axisCoord isHorizontal p := by
          rw [show axisCoord isHorizontal (getCR res t).finalPosition
                + axisCoord isHorizontal p
                + axisCoord isHorizontal (getCR res t).advance
              = axisCoord isHorizontal (getCR res t).finalPosition
                + axisCoord isHorizontal (getCR res t).advance
                + axisCoord isHorizontal p by ring]
          rw [← min_add_add_right, ← min_add_add_right]
        have h2 : max (acc.2 + axisCoord isHorizontal p)
            (max (axisCoord isHorizontal (getCR res t).finalPosition
                + axisCoord isHorizontal p)
              (axisCoord isHorizontal (getCR res t).finalPosition
                + axisCoord isHorizontal p
                + axisCoord isHorizontal (getCR res t).advance))
            = max acc.2
                (max (axisCoord isHorizontal (getCR res t).finalPosition)
                  (axisCoord isHorizontal (getCR res t).finalPosition
                    + axisCoord isHorizontal (getCR res t).advance))
              + axisCoord isHorizontal p := by
          rw [show axisCoord isHorizontal (getCR res t).finalPosition
                + axisCoord isHorizontal p
                + axisCoord isHorizontal (getCR res t).advance
              = axisCoord isHorizontal (getCR res t).finalPosition
                + axisCoord isHorizontal (getCR res t).advance
                + axisCoord isHorizontal p by ring]
          rw [← max_add_add_right, ← max_add_add_right]
        rw [h1, h2]
      · rw [if_neg hadd, if_neg hadd]
    show List.foldl _ (extentFoldF out isHorizontal
      (acc.1 + axisCoord isHorizontal p,
        acc.2 + axisCoord isHorizontal p) t) _ = _
    rw [hstep]
    have hrest := ih (t + 1) (extentFoldF res isHorizontal acc t)
      (fun k hk1 hk2 => hk k (by omega) (by omega))
    rw [hrest]
    rfl

theorem anchorTarget_shift (res : List CharacterResult)
    (isHorizontal : Bool) (s : Nat) (a b : ℚ) :
    anchorTarget (getCR res s).anchor
      (decide ((getCR res s).direction = Direction.rightToLeft))
      (a + anchorShift res isHorizontal s a b)
      (b + anchorShift res isHorizontal s a b)
    = axisCoord isHorizontal (getCR res s).finalPosition := by
  rw [anchorShift, anchorTarget]
  rcases hdir : (getCR res s).direction <;>
    rcases hanch : (getCR res s).anchor <;>
    simp [hdir, hanch] <;> ring

/-- C2: after `applyAnchoring`, for every anchored chunk — the maximal run
of characters from an addressable anchored-chunk start `s` up to the next
such start, `chunkEnd res s` — the chunk's extent (min/max over its
addressable characters' position±advance along the writing-mode axis) has
its start, end, or midpoint (selected by the chunk's anchor value crossed
with its resolved direction) exactly equal to the chunk's first character's
pre-anchoring position. -/
theorem c2_anchoring_invariant (res : List CharacterResult)
    (isHorizontal : Bool) (s : Nat) (hs : s < res.length)
    (ha : (getCR res s).addressable = true)
    (hc : (getCR res s).anchored_chunk = true) :
    anchorTarget (getCR res s).anchor
      (decide ((getCR res s).direction = Direction.rightToLeft))
      (chunkExtent (applyAnchoring res isHorizontal) isHorizontal s
        (chunkEnd res s)).1
      (chunkExtent (applyAnchoring res isHorizontal) isHorizontal s
        (chunkEnd res s)).2
    = axisCoord isHorizontal (getCR res s).finalPosition := by
  have hchunk := anchorLoop_chunk_final isHorizontal res s hs ha hc
    (res.length + 1) res 0 rfl (Nat.zero_le s) (fun k _ => rfl) (by omega)
  have hsge : s < chunkEnd res s := chunkEnd_gt res s
  have hext : chunkExtent (applyAnchoring res isHorizontal) isHorizontal s
      (chunkEnd res s)
      = ((chunkExtent res isHorizontal s (chunkEnd res s)).1
          + axisCoord isHorizontal (chunkShiftP res isHorizontal s),
        (chunkExtent res isHorizontal s (chunkEnd res s)).2
          + axisCoord isHorizontal (chunkShiftP res isHorizontal s)) := by
    rw [chunkExtent, chunkExtent]
    rw [show applyAnchoring res isHorizontal
        = anchorLoop isHorizontal (res.length + 1) res 0 from rfl]
    rw [hchunk s (le_refl s) hsge]
    dsimp only
    rw [axisCoord_add]
    have h1 : min (axisCoord isHorizontal (getCR res s).finalPosition
          + axisCoord isHorizontal (chunkShiftP res isHorizontal s))
        (axisCoord isHorizontal (getCR res s).finalPosition
          + axisCoord isHorizontal (chunkShiftP res isHorizontal s)
          + axisCoord isHorizontal (getCR res s).advance)
        = min (axisCoord isHorizontal (getCR res s).finalPosition)
            (axisCoord isHorizontal (getCR res s).finalPosition
              + axisCoord isHorizontal (getCR res s).advance)
          + axisCoord isHorizontal (chunkShiftP res isHorizontal s) := by
      rw [show axisCoord isHorizontal (getCR res s).finalPosition
            + axisCoord isHorizontal (chunkShiftP res isHorizontal s)
            + axisCoord isHorizontal (getCR res s).advance
          = axisCoord isHorizontal (getCR res s).finalPosition
            + axisCoord isHorizontal (getCR res s).advance
            + axisCoord isHorizontal (chunkShiftP res isHorizontal s)
          by ring]
      rw [← min_add_add_right]
    have h2 : max (axisCoord isHorizontal (getCR res s).finalPosition
          + axisCoord isHorizontal (chunkShiftP res isHorizontal s))
        (axisCoord isHorizontal (getCR res s).finalPosition
          + axisCoord isHorizontal (chunkShiftP res isHorizontal s)
          + axisCoord isHorizontal (getCR res s).advance)
        = max (axisCoord isHorizontal (getCR res s).finalPosition)
            (axisCoord isHorizontal (getCR res s).finalPosition
              + axisCoord isHorizontal (getCR res s).advance)
          + axisCoord isHorizontal (chunkShiftP res isHorizontal s) := by
      rw [show axisCoord isHorizontal (getCR res s).finalPosition
            + axisCoord isHorizontal (chunkShiftP res isHorizontal s)
            + axisCoord isHorizontal (getCR res s).advance
          = axisCoord isHorizontal (getCR res s).finalPosition
            + axisCoord isHorizontal (getCR res s).advance
            + axisCoord isHorizontal (chunkShiftP res isHorizontal s)
          by ring]
      rw [← max_add_add_right]
    rw [h1, h2]
    exact extentFold_translated (anchorLoop isHorizontal (res.length + 1)
        res 0) res isHorizontal (chunkShiftP res isHorizontal s)
      (chunkEnd res s - (s + 1)) (s + 1)
      (min (axisCoord isHorizontal (getCR res s).finalPosition)
          (axisCoord isHorizontal (getCR res s).finalPosition
            + axisCoord isHorizontal (getCR res s).advance),
        max (axisCoord isHorizontal (getCR res s).finalPosition)
          (axisCoord isHorizontal (getCR res s).finalPosition
            + axisCoord isHorizontal (getCR res s).advance))
      (fun k hk1 hk2 => hchunk k (by omega) (by omega))
  rw [hext]
  have hshiftAxis : axisCoord isHorizontal (chunkShiftP res isHorizontal s)
      = anchorShift res isHorizontal s
          (extentScan res isHorizontal s).2.1
          (extentScan res isHorizontal s).2.2 := by
    rw [chunkShiftP]
    cases isHorizontal
    · rfl
    · rfl
  have hAB := (extentScan_eq_chunk res isHorizontal s hs ha hc).2
  have hA : (chunkExtent res isHorizontal s (chunkEnd res s)).1
      = (extentScan res isHorizontal s).2.1 := by rw [hAB]
  have hB : (chunkExtent res isHorizontal s (chunkEnd res s)).2
      = (extentScan res isHorizontal s).2.2 := by rw [hAB]
  rw [hshiftAxis, hA, hB]
  exact anchorTarget_shift res isHorizontal s _ _

/-- Witness for C2 at a concrete input: a single addressable anchored
character at x = 3 with advance 2, horizontal, anchor start, left-to-right;
after anchoring the chunk extent's start equals 3. -/
theorem c2_witness :
    0 < c2res.length ∧
    (getCR c2res 0).addressable = true ∧
    (getCR c2res 0).anchored_chunk = true ∧
    anchorTarget (getCR c2res 0).anchor
      (decide ((getCR c2res 0).direction = Direction.rightToLeft))
      (chunkExtent (applyAnchoring c2res true) true 0 (chunkEnd c2res 0)).1
      (chunkExtent (applyAnchoring c2res true) true 0 (chunkEnd c2res 0)).2
      = axisCoord true (getCR c2res 0).finalPosition := by
  refine ⟨by decide, rfl, rfl, ?_⟩
  exact c2_anchoring_invariant c2res true 0 (by decide) rfl rfl

/-- C1: the character result array has exactly one entry per UTF-16 code
unit of the collapsed text when it reaches the end-of-shaping fixup (its
length is preserved by the fixup), and exactly one synthetic
end-of-paragraph entry is appended when, and only when, the last visible
(addressable, non-middle) character `i` carries a mandatory (hard) line
break; the synthetic entry is `makeDummy`, whose advance is zero along the
writing-mode axis. -/
theorem c1_result_length_and_synthetic_entry (rs : List CharacterResult)
    (isSpace graphemeBreaks : List Bool) (plainTextSize : Nat)
    (isHorizontal : Bool) (i : Nat)
    (hvis : lastVisibleIn rs rs.length = Int.ofNat i) :
    (fixupMiddle isSpace graphemeBreaks plainTextSize rs).1.length
      = rs.length ∧
    ((getCR (fixupMiddle isSpace graphemeBreaks plainTextSize rs).1
        i).breakType = BreakType.hardBreak →
      (insertDummy isHorizontal
        (fixupMiddle isSpace graphemeBreaks plainTextSize rs)).1.length
          = rs.length + 1 ∧
      getCR (insertDummy isHorizontal
          (fixupMiddle isSpace graphemeBreaks plainTextSize rs)).1 (i + 1)
        = makeDummy
            (getCR (fixupMiddle isSpace graphemeBreaks plainTextSize rs).1 i)
            isHorizontal ∧
      axisCoord isHorizontal
        (getCR (insertDummy isHorizontal
          (fixupMiddle isSpace graphemeBreaks plainTextSize rs)).1
          (i + 1)).advance = 0) ∧
    ((getCR (fixupMiddle isSpace graphemeBreaks plainTextSize rs).1
        i).breakType ≠ BreakType.hardBreak →
      (insertDummy isHorizontal
        (fixupMiddle isSpace graphemeBreaks plainTextSize rs)).1
        = (fixupMiddle isSpace graphemeBreaks plainTextSize rs).1) := by
  have hspec := lastVisibleIn_spec rs rs.length i hvis
  have hlen1 : (fixupMiddle isSpace graphemeBreaks plainTextSize rs).1.length
      = rs.length := by
    rw [fixupMiddle, fixupEpilogue_length, fixupFold_length]
  have hsnd : (fixupMiddle isSpace graphemeBreaks plainTextSize rs).2
      = Int.ofNat i := by
    rw [fixupMiddle, fixupEpilogue_snd,
      fixupFold_firstCluster _ _ _ _ le_rfl, hvis]
  have hfc : ((max 0
      (fixupMiddle isSpace graphemeBreaks plainTextSize rs).2).toNat) = i :=
    by rw [hsnd]; simp
  refine ⟨hlen1, ?_, ?_⟩
  · intro hhard
    rw [insertDummy, hfc, if_pos hhard]
    have hi1 : i + 1 ≤
        (fixupMiddle isSpace graphemeBreaks plainTextSize rs).1.length := by
      rw [hlen1]
      omega
    have hdummy : getCR
        ((fixupMiddle isSpace graphemeBreaks plainTextSize rs).1.insertIdx
          (i + 1)
          (makeDummy
            (getCR (fixupMiddle isSpace graphemeBreaks plainTextSize rs).1 i)
            isHorizontal)) (i + 1)
        = makeDummy
            (getCR (fixupMiddle isSpace graphemeBreaks plainTextSize rs).1 i)
            isHorizontal := by
      have h2 : i + 1 <
          ((fixupMiddle isSpace graphemeBreaks plainTextSize rs).1.insertIdx
            (i + 1)
            (makeDummy
              (getCR (fixupMiddle isSpace graphemeBreaks plainTextSize rs).1
                i) isHorizontal)).length := by
        rw [List.length_insertIdx _ _ hi1]
        omega
      rw [getCR, List.getD_eq_getElem _ _ h2]
      exact List.getElem_insertIdx_self _ _ _ hi1
    refine ⟨?_, hdummy, ?_⟩
    · show (List.insertIdx _ _ _).length = _
      rw [List.length_insertIdx _ _ hi1, hlen1]
    · show axisCoord isHorizontal (getCR (List.insertIdx _ _ _) _).advance = 0
      rw [hdummy]
      cases isHorizontal
      · rfl
      · rfl
  · intro hnot
    rw [insertDummy, hfc, if_neg hnot]

/-- C7: a code unit whose glyph retrieval failed (every raqm glyph for its
cluster has `loadGlyph` returning false) and whose visual index was never
assigned is marked middle and hidden by the fixup, its css position is
derived from its cluster's representative character (the last visible code
unit `fc` before it: representative css position plus advance), and it
remains an entry of the character result array, whose length is unchanged. -/
theorem c7_failed_glyph_middle_hidden (rs : List CharacterResult)
    (glyphs : List RaqmGlyph) (isSpace graphemeBreaks : List Bool)
    (plainTextSize : Nat) (i fc : Nat) (hi : i < rs.length)
    (hvi : (getCR rs i).visualIndex = -1)
    (hfail : ∀ g ∈ glyphs, g.cluster = i → g.success = false)
    (hrep : lastVisibleIn (glyphPass rs glyphs) i = Int.ofNat fc) :
    (fixupMiddle isSpace graphemeBreaks plainTextSize
      (glyphPass rs glyphs)).1.length = rs.length ∧
    (getCR (fixupMiddle isSpace graphemeBreaks plainTextSize
      (glyphPass rs glyphs)).1 i).middle = true ∧
    (getCR (fixupMiddle isSpace graphemeBreaks plainTextSize
      (glyphPass rs glyphs)).1 i).hidden = true ∧
    (getCR (fixupMiddle isSpace graphemeBreaks plainTextSize
      (glyphPass rs glyphs)).1 i).cssPosition
      = (getCR (glyphPass rs glyphs) fc).cssPosition
        + (getCR (glyphPass rs glyphs) fc).advance := by
  have h0 : getCR (glyphPass rs glyphs) i = getCR rs i :=
    glyphPass_untouched rs glyphs i hfail
  have hvi0 : (getCR (glyphPass rs glyphs) i).visualIndex = -1 := by
    rw [h0]
    exact hvi
  have hinv : ¬((getCR (glyphPass rs glyphs) i).addressable = true
      ∧ ¬((getCR (glyphPass rs glyphs) i).visualIndex = -1)) :=
    fun hc => hc.2 hvi0
  have hil : i < (glyphPass rs glyphs).length := by
    rw [glyphPass_length]
    exact hi
  have hF := fixupFold_at_invisible isSpace graphemeBreaks
    (glyphPass rs glyphs) (glyphPass rs glyphs).length i fc hil le_rfl
    hinv hrep
  have hmid : (getCR (fixupMiddle isSpace graphemeBreaks plainTextSize
      (glyphPass rs glyphs)).1 i).middle
      = decide ((getCR (glyphPass rs glyphs) i).visualIndex = -1) := by
    rw [fixupMiddle, fixupEpilogue_stable (fun a => a.middle)
      (fun _ _ => rfl)]
    exact hF.1
  refine ⟨?_, ?_, ?_, ?_⟩
  · rw [fixupMiddle, fixupEpilogue_length, fixupFold_length,
      glyphPass_length]
  · rw [hmid, hvi0]
    rfl
  · rw [fixupMiddle, fixupEpilogue_stable (fun a => a.hidden)
      (fun _ _ => rfl)]
    exact hF.2.1
  · rw [fixupMiddle, fixupEpilogue_stable (fun a => a.cssPosition)
      (fun _ _ => rfl)]
    exact hF.2.2

/-- C3 (code bug): the divisor of the textLength redistribution is NOT
guarded against zero.  On a node whose addressable characters were all
already stretched by a descendant's textLength (so the unstretched count is
0, plus 1 resolved child, minus 1 for lengthAdjust=spacing), line 957
computes `delta / 0` with `delta = 50 ≠ 0` — a non-finite value in the
C++ qreal arithmetic — and the loop of lines 961-984 adds that quotient
into the running shift (`dIncrements = 1`) and then into a character's
final position (`shiftedAfterIncrement = 1`), so the adjustment is not the
guarded no-op the spec requires. -/
theorem c3_zero_divisor_unguarded :
    (applyTextLengthNode c3rs 0 2 (some 50) false 1 true).divisorN = 0 ∧
    (applyTextLengthNode c3rs 0 2 (some 50) false 1 true).delta = 50 ∧
    1 ≤ (applyTextLengthNode c3rs 0 2 (some 50) false 1 true).dIncrements ∧
    1 ≤ (applyTextLengthNode c3rs 0 2 (some 50) false 1
      true).shiftedAfterIncrement := by
  refine ⟨by decide, ?_, by decide, by decide⟩
  simp [applyTextLengthNode, textLengthScan, getCR, c3rs,
    defaultCharacterResult, axisCoord, List.range']

/-- Witness for C1 at a concrete input: one visible hard-break character;
the synthetic entry is appended, the array grows from 1 to 2 entries, and
the synthetic entry's advance is zero along the (horizontal) axis. -/
theorem c1_witness :
    lastVisibleIn c1rs c1rs.length = Int.ofNat 0 ∧
    (getCR (fixupMiddle [true] [false] 1 c1rs).1 0).breakType
      = BreakType.hardBreak ∧
    (insertDummy true (fixupMiddle [true] [false] 1 c1rs)).1.length
      = c1rs.length + 1 ∧
    axisCoord true
      (getCR (insertDummy true (fixupMiddle [true] [false] 1 c1rs)).1
        1).advance = 0 := by
  have hv : lastVisibleIn c1rs c1rs.length = Int.ofNat 0 := by decide
  have hb : (getCR (fixupMiddle [true] [false] 1 c1rs).1 0).breakType
      = BreakType.hardBreak := by decide
  have hmain := c1_result_length_and_synthetic_entry c1rs [true] [false] 1
    true 0 hv
  exact ⟨hv, hb, (hmain.2.1 hb).1, (hmain.2.1 hb).2.2⟩

/-- Witness for C7 at a concrete input: cluster 1's glyph fails to load; the
code unit stays in the array (length 2), and is marked middle and hidden
with its css position inherited from the representative at index 0. -/
theorem c7_witness :
    1 < c7rs.length ∧
    (getCR c7rs 1).visualIndex = -1 ∧
    (∀ g ∈ c7glyphs, g.cluster = 1 → g.success = false) ∧
    lastVisibleIn (glyphPass c7rs c7glyphs) 1 = Int.ofNat 0 ∧
    ((fixupMiddle [false, false] [false, false] 2
        (glyphPass c7rs c7glyphs)).1.length = c7rs.length ∧
      (getCR (fixupMiddle [false, false] [false, false] 2
        (glyphPass c7rs c7glyphs)).1 1).middle = true ∧
      (getCR (fixupMiddle [false, false] [false, false] 2
        (glyphPass c7rs c7glyphs)).1 1).hidden = true ∧
      (getCR (fixupMiddle [false, false] [false, false] 2
        (glyphPass c7rs c7glyphs)).1 1).cssPosition
        = (getCR (glyphPass c7rs c7glyphs) 0).cssPosition
          + (getCR (glyphPass c7rs c7glyphs) 0).advance) := by
  have h1 : 1 < c7rs.length := by decide
  have h2 : (getCR c7rs 1).visualIndex = -1 := by decide
  have h3 : ∀ g ∈ c7glyphs, g.cluster = 1 → g.success = false := by decide
  have h4 : lastVisibleIn (glyphPass c7rs c7glyphs) 1 = Int.ofNat 0 := by
    decide
  exact ⟨h1, h2, h3, h4, c7_failed_glyph_middle_hidden c7rs c7glyphs
    [false, false] [false, false] 2 1 0 h1 h2 h3 h4⟩

/-!
### Lemmas about the distilled top-level relayout
-/

theorem foldl_preserves {σ ι : Type _} (f : σ → ι → σ) (P : σ → Prop)
    (hstep : ∀ (s : σ) (i : ι), P s → P (f s i)) :
    ∀ (l : List ι) (s : σ), P s → P (l.foldl f s) := by
  intro l
  induction l with
  | nil => intro s h; exact h
  | cons x xs ih => intro s h; exact ih (f s x) (hstep s x h)

theorem getCR_set_anchored_mono (rs : List CharacterResult)
    (v : CharacterResult) (i j : Nat)
    (hmono : (getCR rs i).anchored_chunk = true → v.anchored_chunk = true)
    (h : (getCR rs j).anchored_chunk = true) :
    (getCR (rs.set i v) j).anchored_chunk = true := by
  by_cases hij : i = j
  · subst hij
    by_cases hl : i < rs.length
    · rw [getCR_set_self rs v i hl]
      exact hmono h
    · rw [List.set_eq_of_length_le (by omega)]
      exact h
  · rw [getCR_set_ne rs v i j hij]
    exact h

theorem assignPlainIndices_length (plainIndices : List Int) :
    ∀ (i : Nat) (rs : List CharacterResult),
    (assignPlainIndices plainIndices i rs).length = rs.length := by
  intro i rs
  induction rs generalizing i with
  | nil => rfl
  | cons cr rest ih => simp [assignPlainIndices, ih]

theorem resolveStep_fst_length (text : List Char)
    (collapsedChars : List Bool) (localTransforms : List CharTransformation)
    (wrapped : Bool) (k : Nat)
    (st : List CharacterResult × List CharTransformation × Nat) :
    (resolveStep text collapsedChars localTransforms wrapped k st).1.length
      = st.1.length := by
  rw [resolveStep]
  dsimp only
  split
  · simp
  · split
    · rfl
    · split
      · rfl
      · rfl

theorem resolveTransformsFlat_fst_length (text : List Char)
    (collapsedChars : List Bool) (localTransforms : List CharTransformation)
    (wrapped : Bool) (rs : List CharacterResult)
    (rt : List CharTransformation) :
    (resolveTransformsFlat text collapsedChars localTransforms wrapped rs
      rt).1.length = rs.length := by
  rw [resolveTransformsFlat]
  dsimp only
  exact foldl_preserves
    (fun st k => resolveStep text collapsedChars localTransforms wrapped k st)
    (fun st => st.1.length = rs.length)
    (fun s i hs => by
      dsimp only
      rw [resolveStep_fst_length]
      exact hs)
    (List.range text.length) (rs, rt, 0) rfl

theorem assignBreakTypesGo_length (lineBreaks : List LineBreakClass)
    (anchor : TextAnchor) (direction : Direction) (wrap : Bool) :
    ∀ (i : Nat) (rs : List CharacterResult),
    (assignBreakTypesGo lineBreaks anchor direction wrap i rs).length
      = rs.length := by
  intro i rs
  induction rs generalizing i with
  | nil => rfl
  | cons cr rest ih => simp [assignBreakTypesGo, ih]

theorem assignBreakTypes_length (lineBreaks : List LineBreakClass)
    (anchor : TextAnchor) (direction : Direction) (wrap : Bool)
    (rs : List CharacterResult) :
    (assignBreakTypes lineBreaks anchor direction wrap rs).length
      = rs.length :=
  assignBreakTypesGo_length lineBreaks anchor direction wrap 0 rs

theorem markFirstAnchored_anchored_zero (rs : List CharacterResult)
    (h : rs ≠ []) :
    (getCR (markFirstAnchored rs) 0).anchored_chunk = true := by
  rw [markFirstAnchored,
    if_neg (by simp only [List.isEmpty_iff]; exact h),
    getCR_set_self rs _ 0 (List.length_pos.mpr h)]

theorem glyphPassGo_anchored (glyphs : List RaqmGlyph) :
    ∀ (rs : List CharacterResult) (i j : Nat),
    (getCR (glyphPassGo rs i glyphs) j).anchored_chunk
      = (getCR rs j).anchored_chunk := by
  induction glyphs with
  | nil => intro rs i j; rfl
  | cons g rest ih =>
    intro rs i j
    rw [glyphPassGo]
    split
    · split
      · rw [ih]
        exact getCR_set_field (fun a => a.anchored_chunk) rs _ _ j rfl
      · exact ih rs (i + 1) j
    · exact ih rs (i + 1) j

theorem glyphPass_anchored (rs : List CharacterResult)
    (glyphs : List RaqmGlyph) (j : Nat) :
    (getCR (glyphPass rs glyphs) j).anchored_chunk
      = (getCR rs j).anchored_chunk :=
  glyphPassGo_anchored glyphs rs 0 j

theorem fixupMiddle_anchored (isSpace gB : List Bool) (p : Nat)
    (rs : List CharacterResult) (j : Nat) :
    (getCR (fixupMiddle isSpace gB p rs).1 j).anchored_chunk
      = (getCR rs j).anchored_chunk :=
  calc (getCR (fixupMiddle isSpace gB p rs).1 j).anchored_chunk
      = (getCR (fixupFold isSpace gB rs.length rs).1 j).anchored_chunk :=
        fixupEpilogue_stable (fun a => a.anchored_chunk) (fun a ci => rfl)
          p (fixupFold isSpace gB rs.length rs) j
    _ = (getCR rs j).anchored_chunk :=
        fixupFold_stable (fun a => a.anchored_chunk) (fun a m => rfl)
          (fun a bt ls le => rfl) (fun a ci => rfl) (fun a cp => rfl)
          isSpace gB rs.length rs j

theorem insertDummy_getCR_zero (isHorizontal : Bool)
    (st : List CharacterResult × Int) :
    getCR (insertDummy isHorizontal st).1 0 = getCR st.1 0 := by
  rw [insertDummy]
  split
  · cases hc : st.1 with
    | nil =>
      dsimp only
      rw [List.insertIdx_of_length_lt _ _ _ (by simp)]
    | cons a l =>
      dsimp only
      rw [List.insertIdx_succ_cons]
      rfl
  · rfl

theorem dxdyStep_anchored (rt : List CharTransformation) (i : Nat)
    (st : List CharacterResult × Pt × Bool) (j : Nat)
    (h : (getCR st.1 j).anchored_chunk = true) :
    (getCR (dxdyStep rt i st).1 j).anchored_chunk = true := by
  rw [dxdyStep]
  dsimp only
  split
  · repeat' split
    all_goals
      exact getCR_set_anchored_mono _ _ _ _
        (fun ha => by first | rfl | exact ha) h
  · exact h

theorem dxdyPass_anchored (rt : List CharTransformation)
    (rs : List CharacterResult) (j : Nat)
    (h : (getCR rs j).anchored_chunk = true) :
    (getCR (dxdyPass rt rs) j).anchored_chunk = true := by
  rw [dxdyPass]
  exact foldl_preserves (fun st i => dxdyStep rt i st)
    (fun st => (getCR st.1 j).anchored_chunk = true)
    (fun s i hs => dxdyStep_anchored rt i s j hs)
    (List.range rs.length) (rs, ⟨0, 0⟩, false) h

theorem textLengthShiftStep_anchored (d : Pt) (sg : Bool) (lk : Int)
    (st : List CharacterResult × Pt × Bool × Nat × Nat) (e : Int × Nat)
    (j : Nat) (h : (getCR st.1 j).anchored_chunk = true) :
    (getCR (textLengthShiftStep d sg lk st e).1 j).anchored_chunk
      = true := by
  rw [textLengthShiftStep]
  dsimp only
  split
  · repeat' split
    all_goals
      exact getCR_set_anchored_mono _ _ _ _
        (fun ha => by first | rfl | exact ha) h
  · exact h

theorem applyTextLengthNode_anchored (result : List CharacterResult)
    (i j : Nat) (tl : Option ℚ) (sg : Bool) (rc : Nat) (isH : Bool)
    (jdx : Nat) (h : (getCR result jdx).anchored_chunk = true) :
    (getCR (applyTextLengthNode result i j tl sg rc isH).result
      jdx).anchored_chunk = true := by
  cases tl with
  | none => exact h
  | some v =>
    simp only [applyTextLengthNode]
    refine foldl_preserves _
      (fun (st : List CharacterResult × Nat) =>
        (getCR st.1 jdx).anchored_chunk = true)
      (fun s e hs => ?_) _ _ ?_
    · dsimp only
      split
      · exact getCR_set_anchored_mono _ _ _ _ (fun ha => ha) hs
      · exact hs
    · refine foldl_preserves _
        (fun (st : List CharacterResult × Pt × Bool × Nat × Nat) =>
          (getCR st.1 jdx).anchored_chunk = true)
        (fun s e hs => textLengthShiftStep_anchored _ _ _ s e jdx hs)
        _ _ h

theorem xyStep_anchored (rt : List CharTransformation) (i : Nat)
    (st : List CharacterResult × Pt) (j : Nat)
    (h : (getCR st.1 j).anchored_chunk = true) :
    (getCR (xyStep rt i st).1 j).anchored_chunk = true := by
  rw [xyStep]
  dsimp only
  split
  · repeat' split
    all_goals
      exact getCR_set_anchored_mono _ _ _ _
        (fun ha => by first | rfl | exact ha) h
  · exact h

theorem xyPass_anchored (rt : List CharTransformation)
    (rs : List CharacterResult) (j : Nat)
    (h : (getCR rs j).anchored_chunk = true) :
    (getCR (xyPass rt rs) j).anchored_chunk = true := by
  rw [xyPass]
  exact foldl_preserves (fun st i => xyStep rt i st)
    (fun st => (getCR st.1 j).anchored_chunk = true)
    (fun s i hs => xyStep_anchored rt i s j hs)
    (List.range rs.length) (rs, ⟨0, 0⟩) h

theorem shiftRange_anchored (res : List CharacterResult) (s e : Nat)
    (p : Pt) (j : Nat) :
    (getCR (shiftRange res s e p) j).anchored_chunk
      = (getCR res j).anchored_chunk := by
  rw [shiftRange, shiftRangeGo_getCR]
  split
  · rfl
  · rfl

theorem anchorLoop_anchored (isHorizontal : Bool) :
    ∀ (fuel : Nat) (res : List CharacterResult) (start j : Nat),
    (getCR (anchorLoop isHorizontal fuel res start) j).anchored_chunk
      = (getCR res j).anchored_chunk := by
  intro fuel
  induction fuel with
  | zero => intro res start j; rfl
  | succ n ih =>
    intro res start j
    rw [anchorLoop]
    split
    · rw [ih, shiftRange_anchored]
    · rfl

theorem applyAnchoring_anchored (res : List CharacterResult)
    (isHorizontal : Bool) (j : Nat) :
    (getCR (applyAnchoring res isHorizontal) j).anchored_chunk
      = (getCR res j).anchored_chunk :=
  anchorLoop_anchored isHorizontal (res.length + 1) res 0 j

theorem cursorOffsetsInsert_anchored (i : Nat) (p : Pt)
    (rs : List CharacterResult) (j : Nat) :
    (getCR (cursorOffsetsInsert i p rs) j).anchored_chunk
      = (getCR rs j).anchored_chunk :=
  getCR_set_field (fun a => a.anchored_chunk) rs _ i j rfl

theorem cursorGraphemesInsert_anchored (i : Nat)
    (rs : List CharacterResult) (j : Nat) :
    (getCR (cursorGraphemesInsert i rs) j).anchored_chunk
      = (getCR rs j).anchored_chunk :=
  getCR_set_field (fun a => a.anchored_chunk) rs _ i j rfl

theorem cursorOffsetsOverwrite_anchored (i : Nat) (ps : List Pt)
    (rs : List CharacterResult) (j : Nat) :
    (getCR (cursorOffsetsOverwrite i ps rs) j).anchored_chunk
      = (getCR rs j).anchored_chunk := by
  rw [cursorOffsetsOverwrite]
  split
  · exact getCR_set_field (fun a => a.anchored_chunk) rs _ i j rfl
  · rfl

theorem cursorStep_anchored (i : Nat)
    (st : List CharacterResult × List CursorPos) (j : Nat) :
    (getCR (cursorStep i st).1 j).anchored_chunk
      = (getCR st.1 j).anchored_chunk := by
  rw [cursorStep]
  dsimp only
  split
  · rw [cursorOffsetsOverwrite_anchored]
    split
    · rw [cursorGraphemesInsert_anchored, cursorOffsetsInsert_anchored]
    · rfl
  · rfl

theorem dummyCursor_anchored (dummyIndex : Option Nat)
    (st : List CharacterResult × List CursorPos) (j : Nat) :
    (getCR (dummyCursor dummyIndex st).1 j).anchored_chunk
      = (getCR st.1 j).anchored_chunk := by
  cases dummyIndex with
  | none => rfl
  | some d =>
    rw [dummyCursor]
    split
    · dsimp only
      rw [cursorOffsetsInsert_anchored]
      exact getCR_set_field (fun a => a.anchored_chunk) st.1 _ d j rfl
    · rfl

theorem buildCursorOutputs_anchored (rs : List CharacterResult)
    (dummyIndex : Option Nat) (j : Nat)
    (h : (getCR rs j).anchored_chunk = true) :
    (getCR (buildCursorOutputs rs dummyIndex).1 j).anchored_chunk
      = true := by
  rw [buildCursorOutputs, dummyCursor_anchored]
  exact foldl_preserves (fun st i => cursorStep i st)
    (fun (st : List CharacterResult × List CursorPos) =>
      (getCR st.1 j).anchored_chunk = true)
    (fun s i hs => (cursorStep_anchored i s j).trans hs)
    (List.range rs.length) (rs, []) h

theorem initResolvedTransforms_at_zero (n : Nat) (h : 0 < n) :
    (getCT (initResolvedTransforms n) 0).xPos = some 0 ∧
    (getCT (initResolvedTransforms n) 0).yPos = some 0 := by
  rw [initResolvedTransforms]
  dsimp only
  rw [if_neg (by simp only [List.isEmpty_iff]; simp; omega),
    getCT_set_self _ _ _ (by simp; omega)]
  exact ⟨rfl, rfl⟩

theorem relayoutMain_anchored_zero (inp : RelayoutInput)
    (gs : List RaqmGlyph) (htext : inp.text ≠ []) :
    (getCR (relayoutMain inp gs).result 0).anchored_chunk = true := by
  simp only [relayoutMain]
  refine buildCursorOutputs_anchored _ _ 0 ?_
  have hne : assignBreakTypes inp.lineBreaks inp.anchor inp.direction
      inp.wrap (resolveTransformsFlat
        (replaceHardBreaks inp.text inp.lineBreaks) inp.collapsedChars
        inp.localTransforms inp.wrapped
        (assignPlainIndices inp.plainIndices 0
          (List.replicate inp.text.length defaultCharacterResult))
        (initResolvedTransforms inp.text.length)).1 ≠ [] := by
    intro hnil
    have hl := congrArg List.length hnil
    rw [assignBreakTypes_length, resolveTransformsFlat_fst_length,
      assignPlainIndices_length, List.length_replicate] at hl
    exact htext (List.length_eq_zero.mp hl)
  split
  · rw [applyAnchoring_anchored]
    apply xyPass_anchored
    apply applyTextLengthNode_anchored
    apply dxdyPass_anchored
    rw [insertDummy_getCR_zero, fixupMiddle_anchored, glyphPass_anchored]
    exact markFirstAnchored_anchored_zero _ hne
  · rw [insertDummy_getCR_zero, fixupMiddle_anchored, glyphPass_anchored]
    exact markFirstAnchored_anchored_zero _ hne

/-- C8: for every relayout invocation on a tree whose collapsed text is
empty, the layout short-circuits with an empty result: the stored
character results, cursor positions, logical-to-visual map, outlines and
decorations are cleared and left empty, and the out-of-bounds fixup read
of lines 573-581 is never reached.  (A non-empty tree with empty text
short-circuits through the glyph-array null check of lines 466-470: raqm
is external and produces no glyph array for empty text, which is the
`inp.glyphs = none` disjunct of the hypothesis.) -/
theorem c8_empty_text_short_circuits (inp : RelayoutInput)
    (st : LayoutState) (htext : inp.text = [])
    (hshaper : inp.treeSize = 0 ∨ inp.glyphs = none) :
    (relayout inp st).result = [] ∧
    (relayout inp st).cursorPos = [] ∧
    (relayout inp st).logicalToVisualCursorPos = [] ∧
    (relayout inp st).associatedOutlines = [] ∧
    (relayout inp st).textDecorations = [] ∧
    reachesEmptyFixupRead inp = false := by
  rcases hshaper with h | h
  · simp [relayout, h, clearEntry, reachesEmptyFixupRead]
  · simp [relayout, h, clearEntry, reachesEmptyFixupRead]

/-- Witness for C8 at a concrete input: the empty tree. -/
theorem c8_witness :
    c8inp.text = [] ∧ (c8inp.treeSize = 0 ∨ c8inp.glyphs = none) ∧
    ((relayout c8inp {}).result = [] ∧
      (relayout c8inp {}).cursorPos = [] ∧
      (relayout c8inp {}).logicalToVisualCursorPos = [] ∧
      (relayout c8inp {}).associatedOutlines = [] ∧
      (relayout c8inp {}).textDecorations = [] ∧
      reachesEmptyFixupRead c8inp = false) :=
  ⟨rfl, Or.inl rfl, c8_empty_text_short_circuits c8inp {} rfl (Or.inl rfl)⟩

/-- C9: relayout is idempotent — running it twice with the same inputs
(same tree content and styling, same external font/shaping resources)
stores exactly the state a single run stores, because every stored field
is cleared at entry (lines 99-103, 813-819) and rebuilt from the inputs
alone on the main path. -/
theorem c9_relayout_idempotent (inp : RelayoutInput) (st : LayoutState) :
    relayout inp (relayout inp st) = relayout inp st := by
  by_cases h0 : inp.treeSize = 0
  · simp [relayout, h0, clearEntry]
  · cases hg : inp.glyphs with
    | none => simp [relayout, h0, hg, clearEntry]
    | some gs => simp [relayout, h0, hg]

/-- C10: for every layout of non-empty collapsed text that reaches the
main path, the very first character result is an anchored-chunk start
(lines 455-458) even when the tree declares no transform for it, and the
resolved-transform array is initialised with absolute position (0, 0) on
its first entry (lines 239-243) before the tree's local transforms are
merged over it. -/
theorem c10_first_char_anchored_origin (inp : RelayoutInput)
    (st : LayoutState) (gs : List RaqmGlyph)
    (htree : ¬inp.treeSize = 0) (hg : inp.glyphs = some gs)
    (htext : inp.text ≠ []) :
    (getCR (relayout inp st).result 0).anchored_chunk = true ∧
    (getCT (initResolvedTransforms inp.text.length) 0).xPos = some 0 ∧
    (getCT (initResolvedTransforms inp.text.length) 0).yPos = some 0 := by
  have hlen : 0 < inp.text.length := List.length_pos.mpr htext
  constructor
  · have hrw : relayout inp st = relayoutMain inp gs := by
      simp [relayout, htree, hg]
    rw [hrw]
    exact relayoutMain_anchored_zero inp gs htext
  · exact initResolvedTransforms_at_zero inp.text.length hlen

/-- Witness for C10 at a concrete input: a one-character tree with an
empty glyph array. -/
theorem c10_witness :
    (¬c10inp.treeSize = 0) ∧ c10inp.glyphs = some [] ∧ c10inp.text ≠ [] ∧
    ((getCR (relayout c10inp {}).result 0).anchored_chunk = true ∧
      (getCT (initResolvedTransforms c10inp.text.length) 0).xPos
        = some 0 ∧
      (getCT (initResolvedTransforms c10inp.text.length) 0).yPos
        = some 0) :=
  ⟨by decide, rfl, by decide,
    c10_first_char_anchored_origin c10inp {} [] (by decide) rfl (by decide)⟩

end KritaTextLayout
